import Mathlib

/-!
Verification development for the DeepTutor agent-orchestration core.

This file gives a shallow embedding of the parts of the repository that the
checked claims are about:

* `src/agents/solve/utils/json_utils.py` (`extract_json_from_text`), together
  with a model of the Python `json` module (`json.loads` / `json.dumps`) that
  the function calls into.  JSON values are modelled by the inductive `Json`
  below; numbers are modelled as arbitrary-precision integers (Python ints);
  floating-point literals are outside the model (the parser model rejects
  them), and object values are kept as ordered field lists.
* `src/agents/ideagen/material_organizer_agent.py`
  (`MaterialOrganizerAgent.process` and `_fallback_extract`), including the
  relevant fragment of Python runtime semantics (`in`, `[]`, `str`,
  iteration, truthiness) on JSON-shaped values.
* `src/agents/solve/utils/prompt_loader.py` (`PromptLoader.load`,
  `_validate_config`, `_build_prompts`, `set_language`, `reload`,
  `clear_cache`) over an explicit file-system model.
* `src/agents/solve/base_agent.py` (`BaseAgent.get_model`, `call_llm`, and
  the prompt-loading part of `__init__`).
-/

/-- Model of a parsed JSON value (the values Python's `json.loads` produces,
restricted to integer numbers; object fields are kept in document order). -/
inductive Json where
  | null
  | bool (b : Bool)
  | num (n : Int)
  | str (s : String)
  | arr (elems : List Json)
  | obj (fields : List (String × Json))

mutual
/-- Node-count measure on `Json`, used as fuel bound for the parser model. -/
def jsize : Json → Nat
  | .null => 1
  | .bool _ => 1
  | .num _ => 1
  | .str _ => 1
  | .arr l => 1 + jsizeList l
  | .obj l => 1 + jsizeObj l
def jsizeList : List Json → Nat
  | [] => 0
  | v :: vs => 1 + jsize v + jsizeList vs
def jsizeObj : List (String × Json) → Nat
  | [] => 0
  | (_, v) :: vs => 1 + jsize v + jsizeObj vs
end

mutual
/-- Boolean structural equality on `Json`. -/
def jbeq : Json → Json → Bool
  | .null, .null => true
  | .bool a, .bool b => a == b
  | .num a, .num b => a == b
  | .str a, .str b => a == b
  | .arr a, .arr b => jbeqList a b
  | .obj a, .obj b => jbeqObj a b
  | _, _ => false
def jbeqList : List Json → List Json → Bool
  | [], [] => true
  | a :: as_, b :: bs => jbeq a b && jbeqList as_ bs
  | _, _ => false
def jbeqObj : List (String × Json) → List (String × Json) → Bool
  | [], [] => true
  | (k1, v1) :: as_, (k2, v2) :: bs => k1 == k2 && jbeq v1 v2 && jbeqObj as_ bs
  | _, _ => false
end

mutual
theorem jbeq_iff : ∀ a b : Json, jbeq a b = true ↔ a = b
  | .null, b => by cases b <;> simp [jbeq]
  | .bool x, b => by cases b <;> simp [jbeq]
  | .num x, b => by cases b <;> simp [jbeq]
  | .str x, b => by cases b <;> simp [jbeq]
  | .arr l, b => by
    cases b <;> simp [jbeq]
    exact jbeqList_iff l _
  | .obj l, b => by
    cases b <;> simp [jbeq]
    exact jbeqObj_iff l _
theorem jbeqList_iff : ∀ a b : List Json, jbeqList a b = true ↔ a = b
  | [], b => by cases b <;> simp [jbeqList]
  | x :: xs, b => by
    cases b with
    | nil => simp [jbeqList]
    | cons y ys => simp [jbeqList, jbeq_iff x y, jbeqList_iff xs ys]
theorem jbeqObj_iff : ∀ a b : List (String × Json), jbeqObj a b = true ↔ a = b
  | [], b => by cases b <;> simp [jbeqObj]
  | (k, v) :: xs, b => by
    cases b with
    | nil => simp [jbeqObj]
    | cons y ys =>
      obtain ⟨k2, v2⟩ := y
      simp [jbeqObj, jbeq_iff v v2, jbeqObj_iff xs ys, and_assoc]
end

instance : DecidableEq Json := fun a b => decidable_of_iff _ (jbeq_iff a b)

/-- Lower-case hexadecimal digit character for `d < 16`. -/
def hexDigitChar (d : Nat) : Char :=
  if d < 10 then Char.ofNat (48 + d) else Char.ofNat (87 + d)

/-- Four lower-case hex digits of `n` (as in Python's `'\\u%04x'`). -/
def hex4 (n : Nat) : List Char :=
  [hexDigitChar (n / 4096 % 16), hexDigitChar (n / 256 % 16),
   hexDigitChar (n / 16 % 16), hexDigitChar (n % 16)]

/-- Escape of one character inside a JSON string literal, modelling
`json.dumps` with its default `ensure_ascii=True`: characters outside
`0x20..0x7e` are written as `\uXXXX` escapes (a surrogate pair above
`0xffff`), with the usual short escapes for the common control characters. -/
def escChar (c : Char) : List Char :=
  if c = '"' then ['\\', '"']
  else if c = '\\' then ['\\', '\\']
  else if c = '\n' then ['\\', 'n']
  else if c = '\t' then ['\\', 't']
  else if c = '\r' then ['\\', 'r']
  else if c = '\x08' then ['\\', 'b']
  else if c = '\x0c' then ['\\', 'f']
  else if c.toNat < 0x20 ∨ 0x7f ≤ c.toNat then
    if c.toNat < 0x10000 then '\\' :: 'u' :: hex4 c.toNat
    else
      '\\' :: 'u' :: hex4 (0xd800 + (c.toNat - 0x10000) / 1024) ++
        '\\' :: 'u' :: hex4 (0xdc00 + (c.toNat - 0x10000) % 1024)
  else [c]

/-- Escape of a whole string body. -/
def escapeList : List Char → List Char
  | [] => []
  | c :: cs => escChar c ++ escapeList cs

/-- Rendering of a JSON string literal, quotes included. -/
def renderString (s : String) : List Char :=
  '"' :: escapeList s.data ++ ['"']

/-- Decimal digit character for `d < 10`. -/
def digitChar (d : Nat) : Char := Char.ofNat (48 + d)

/-- Decimal digits of `n` (most significant first, empty for `0`),
with explicit fuel so the definition is structural. -/
def natDigits : Nat → Nat → List Char
  | 0, _ => []
  | fuel + 1, n => if n = 0 then [] else natDigits fuel (n / 10) ++ [digitChar (n % 10)]

/-- Decimal rendering of a natural number. -/
def renderNat (n : Nat) : List Char :=
  if n = 0 then ['0'] else natDigits n n

/-- Decimal rendering of a Python integer, as `json.dumps` writes it. -/
def renderInt (i : Int) : List Char :=
  if i < 0 then '-' :: renderNat i.natAbs else renderNat i.natAbs

mutual
/-- Model of `json.dumps` with its default separators `", "` and `": "`,
producing the character list of the serialized value. -/
def renderL : Json → List Char
  | .num n => renderInt n
  | .str s => renderString s
  | .null => ['n', 'u', 'l', 'l']
  | .bool b => if b then ['t', 'r', 'u', 'e'] else ['f', 'a', 'l', 's', 'e']
  | .arr l => '[' :: renderElems l ++ [']']
  | .obj l => '{' :: renderFieldsL l ++ ['}']
def renderElems : List Json → List Char
  | [] => []
  | [v] => renderL v
  | v :: vs => renderL v ++ ',' :: ' ' :: renderElems vs
def renderFieldsL : List (String × Json) → List Char
  | [] => []
  | [(k, v)] => renderString k ++ ':' :: ' ' :: renderL v
  | (k, v) :: fs => renderString k ++ ':' :: ' ' :: renderL v ++ ',' :: ' ' :: renderFieldsL fs
end

/-- Model of `json.dumps` returning a string. -/
def render (v : Json) : String := String.mk (renderL v)

example : render (Json.arr [Json.num 1, Json.num (-20)]) = "[1, -20]" := by decide
example : render (Json.obj [("a", Json.str "x")]) = "\x7b\"a\": \"x\"\x7d" := by decide

/-- JSON whitespace, as in the Python `json` scanner (`' \t\n\r'`). -/
def isJsonWs (c : Char) : Bool := c = ' ' || c = '\t' || c = '\n' || c = '\r'

/-- Skip JSON whitespace. -/
def skipWs (cs : List Char) : List Char := cs.dropWhile isJsonWs

/-- Value of one hexadecimal digit character, upper or lower case. -/
def hexVal (c : Char) : Option Nat :=
  if 48 ≤ c.toNat ∧ c.toNat ≤ 57 then some (c.toNat - 48)
  else if 97 ≤ c.toNat ∧ c.toNat ≤ 102 then some (c.toNat - 87)
  else if 65 ≤ c.toNat ∧ c.toNat ≤ 70 then some (c.toNat - 55)
  else none

/-- Four-hex-digit scan (the `\uXXXX` payload). -/
def pHex4 (cs : List Char) : Option (Nat × List Char) :=
  match cs with
  | h1 :: h2 :: h3 :: h4 :: rest =>
    match hexVal h1, hexVal h2, hexVal h3, hexVal h4 with
    | some a, some b, some c, some d => some (4096 * a + 256 * b + 16 * c + d, rest)
    | _, _, _, _ => none
  | _ => none

/-- Decode of a `\u` escape payload, combining a surrogate pair when a high
surrogate is followed by `\u` and a low one.  A lone surrogate denotes no
Lean character, so the model refuses it. -/
def pUnicodeEscape (cs : List Char) : Option (Char × List Char) :=
  (pHex4 cs).bind (fun p =>
    if p.1 < 0xd800 ∨ 0xe000 ≤ p.1 then some (Char.ofNat p.1, p.2)
    else if p.1 < 0xdc00 then
      match p.2 with
      | '\\' :: 'u' :: rest2 =>
        (pHex4 rest2).bind (fun q =>
          if 0xdc00 ≤ q.1 ∧ q.1 < 0xe000 then
            some (Char.ofNat (0x10000 + (p.1 - 0xd800) * 1024 + (q.1 - 0xdc00)), q.2)
          else none)
      | _ => none
    else none)

/-- Decode of one backslash escape, given the character after the backslash
and the rest of the input. -/
def pEscape (e : Char) (rest2 : List Char) : Option (Char × List Char) :=
  if e = '"' then some ('"', rest2)
  else if e = '\\' then some ('\\', rest2)
  else if e = '/' then some ('/', rest2)
  else if e = 'b' then some ('\x08', rest2)
  else if e = 'f' then some ('\x0c', rest2)
  else if e = 'n' then some ('\n', rest2)
  else if e = 'r' then some ('\r', rest2)
  else if e = 't' then some ('\t', rest2)
  else if e = 'u' then pUnicodeEscape rest2
  else none

/-- Fueled string-body parser, entered just after the opening quote; returns
the decoded characters and the input after the closing quote.  Models the
strict Python `json` string scanner: raw control characters are refused and
unknown escapes fail.  One unit of fuel covers one decoded character, so
`length + 1` fuel always suffices. -/
def pStrF : Nat → List Char → Option (List Char × List Char)
  | 0, _ => none
  | _ + 1, [] => none
  | f + 1, c :: rest =>
    if c = '"' then some ([], rest)
    else if c = '\\' then
      match rest with
      | [] => none
      | e :: rest2 =>
        match pEscape e rest2 with
        | some (d, rest3) => (pStrF f rest3).map (fun p => (d :: p.1, p.2))
        | none => none
    else if c.toNat < 0x20 then none
    else (pStrF f rest).map (fun p => (c :: p.1, p.2))

/-- String-body parser with adequate fuel. -/
def pStr (cs : List Char) : Option (List Char × List Char) := pStrF (cs.length + 1) cs

/-- Numeric value of a decimal digit character. -/
def digToNat (c : Char) : Nat := c.toNat - 48

/-- Maximal-munch decimal digit scan with an accumulator. -/
def parseDigits : List Char → Nat → Nat × List Char
  | [], acc => (acc, [])
  | c :: rest, acc =>
    if c.isDigit then parseDigits rest (10 * acc + digToNat c) else (acc, c :: rest)

/-- Integer-part scan after a first digit, following the Python `json` number
regex alternative `(?:0|[1-9]\d*)`: a leading `0` is the whole integer part. -/
def pNumTail (first : Char) (rest : List Char) : Nat × List Char :=
  if first = '0' then (0, rest) else parseDigits rest (digToNat first)

/-- Does a fraction or exponent part follow, i.e. would Python's number regex
continue into a float literal here? -/
def expTailDigit : List Char → Bool
  | [] => false
  | c :: rest =>
    if c = '+' || c = '-' then
      match rest with
      | c2 :: _ => c2.isDigit
      | [] => false
    else c.isDigit

def floatFollows : List Char → Bool
  | [] => false
  | c :: rest =>
    if c = '.' then
      match rest with
      | c2 :: _ => c2.isDigit
      | [] => false
    else if c = 'e' || c = 'E' then expTailDigit rest
    else false

mutual
/-- Fueled value parser modelling the Python `json` scanner (`scan_once`):
expects a value at the head of the input (whitespace already skipped) and
returns the value and the remaining input.  Float literals are outside the
model and make the parse fail. -/
def pv : Nat → List Char → Option (Json × List Char)
  | 0, _ => none
  | _ + 1, [] => none
  | fuel + 1, c :: rest =>
    if c = '{' then
      match skipWs rest with
      | [] => none
      | d :: rest2 => if d = '}' then some (.obj [], rest2) else pFields fuel (d :: rest2)
    else if c = '[' then
      match skipWs rest with
      | [] => none
      | d :: rest2 => if d = ']' then some (.arr [], rest2) else pElems fuel (d :: rest2)
    else if c = '"' then (pStr rest).map (fun p => (.str (String.mk p.1), p.2))
    else if c = 'n' then
      if rest.take 3 = ['u', 'l', 'l'] then some (.null, rest.drop 3) else none
    else if c = 't' then
      if rest.take 3 = ['r', 'u', 'e'] then some (.bool true, rest.drop 3) else none
    else if c = 'f' then
      if rest.take 4 = ['a', 'l', 's', 'e'] then some (.bool false, rest.drop 4) else none
    else if c = '-' then
      match rest with
      | [] => none
      | d :: rest2 =>
        if d.isDigit then
          let p := pNumTail d rest2
          if floatFollows p.2 then none else some (.num (-(p.1 : Int)), p.2)
        else none
    else if c.isDigit then
      let p := pNumTail c rest
      if floatFollows p.2 then none else some (.num (p.1 : Int), p.2)
    else none
/-- Array-element loop, entered on the first non-whitespace character after
`[` when that character is not `]`. -/
def pElems : Nat → List Char → Option (Json × List Char)
  | 0, _ => none
  | fuel + 1, cs =>
    match pv fuel cs with
    | none => none
    | some (v, r) =>
      match skipWs r with
      | [] => none
      | d :: r2 =>
        if d = ',' then
          match pElems fuel (skipWs r2) with
          | some (.arr vs, r3) => some (.arr (v :: vs), r3)
          | _ => none
        else if d = ']' then some (.arr [v], r2)
        else none
/-- Object-field loop, entered on the first non-whitespace character after
`{` when that character is not `}`; Python requires a double-quoted key. -/
def pFields : Nat → List Char → Option (Json × List Char)
  | 0, _ => none
  | fuel + 1, cs =>
    match cs with
    | [] => none
    | c :: rest =>
      if c = '"' then
        match pStr rest with
        | none => none
        | some (k, r) =>
          match skipWs r with
          | [] => none
          | d :: r2 =>
            if d = ':' then
              match pv fuel (skipWs r2) with
              | none => none
              | some (v, r3) =>
                match skipWs r3 with
                | [] => none
                | e :: r4 =>
                  if e = ',' then
                    match pFields fuel (skipWs r4) with
                    | some (.obj fs, r5) => some (.obj ((String.mk k, v) :: fs), r5)
                    | _ => none
                  else if e = '}' then some (.obj [(String.mk k, v)], r4)
                  else none
            else none
      else none
end

/-- Model of `json.loads` on a character list: skip leading whitespace, parse
one value, require only whitespace afterwards.  The fuel `2 * length + 2`
covers any recursion the scanner can perform on the input. -/
def loadsL (cs : List Char) : Option Json :=
  let cs2 := skipWs cs
  match pv (2 * cs2.length + 2) cs2 with
  | some (v, r) => if skipWs r = [] then some v else none
  | none => none

/-- Model of `json.loads` on a string. -/
def json_loads (s : String) : Option Json := loadsL s.data

example : json_loads "  [1, \"a\"] " = some (Json.arr [Json.num 1, Json.str "a"]) := by decide
example : json_loads "\x7b\"a\": null\x7d" = some (Json.obj [("a", Json.null)]) := by decide
example : json_loads "not json at all" = none := by decide
example : json_loads "[1,]" = none := by decide
example : json_loads "01" = none := by decide
example : json_loads "1.5" = none := by decide
example : json_loads (render (Json.str "q\"z\\t")) = some (Json.str "q\"z\\t") := by decide

theorem char_toNat_valid (c : Char) :
    c.toNat < 0xd800 ∨ (0xe000 ≤ c.toNat ∧ c.toNat < 0x110000) := by
  rcases c.valid with h | ⟨h1, h2⟩
  · left
    exact UInt32.toNat_lt_of_lt (by norm_num [UInt32.size]) h
  · right
    constructor
    · show 0xe000 ≤ c.val.toNat
      omega
    · show c.val.toNat < 0x110000
      omega

theorem digitChar_toNat (d : Nat) (h : d < 10) : (digitChar d).toNat = 48 + d := by
  unfold digitChar
  interval_cases d <;> decide

theorem digitChar_isDigit (d : Nat) (h : d < 10) : (digitChar d).isDigit = true := by
  unfold digitChar
  interval_cases d <;> decide

theorem digitChar_ne_zero (d : Nat) (h0 : 0 < d) (h : d < 10) : digitChar d ≠ '0' := by
  unfold digitChar
  interval_cases d <;> decide

theorem digToNat_digitChar (d : Nat) (h : d < 10) : digToNat (digitChar d) = d := by
  unfold digToNat
  rw [digitChar_toNat d h]
  omega

/-- Value accumulated by a left fold over decimal digits. -/
def digitsVal (A : List Char) (acc : Nat) : Nat :=
  A.foldl (fun a c => 10 * a + digToNat c) acc

/-- Does the input not begin with a digit (so a maximal-munch digit scan
stops here)? -/
def noDigitHead : List Char → Bool
  | [] => true
  | c :: _ => !c.isDigit

/-- A character that may safely follow a rendered value without changing how
the scanner delimits it. -/
def boundaryOk : List Char → Bool
  | [] => true
  | c :: _ => !(c.isDigit || c == '.' || c == 'e' || c == 'E' || c == '+' || c == '-')

theorem boundaryOk_noDigitHead {rest : List Char} (h : boundaryOk rest = true) :
    noDigitHead rest = true := by
  cases rest with
  | nil => rfl
  | cons c t =>
    simp [boundaryOk] at h
    simp [noDigitHead, h.1.1.1.1.1]

theorem boundaryOk_floatFollows {rest : List Char} (h : boundaryOk rest = true) :
    floatFollows rest = false := by
  cases rest with
  | nil => rfl
  | cons c t =>
    simp [boundaryOk] at h
    simp [floatFollows, h.1.1.1.1.2, h.1.1.1.2, h.1.1.2]

theorem natDigits_zero : ∀ f, natDigits f 0 = [] := by
  intro f
  cases f <;> simp [natDigits]

theorem parseDigits_append (A : List Char) (rest : List Char) (acc : Nat)
    (h : ∀ c ∈ A, c.isDigit = true) :
    parseDigits (A ++ rest) acc = parseDigits rest (digitsVal A acc) := by
  induction A generalizing acc with
  | nil => simp [digitsVal]
  | cons c t ih =>
    have hc : c.isDigit = true := h c (by simp)
    simp only [List.cons_append, parseDigits, hc, if_true, List.append_eq]
    rw [ih _ (fun x hx => h x (by simp [hx]))]
    simp [digitsVal]

theorem parseDigits_stop (rest : List Char) (acc : Nat) (h : noDigitHead rest = true) :
    parseDigits rest acc = (acc, rest) := by
  cases rest with
  | nil => rfl
  | cons c t =>
    simp [noDigitHead] at h
    simp [parseDigits, h]

theorem natDigits_all_digits : ∀ f n, ∀ c ∈ natDigits f n, c.isDigit = true := by
  intro f
  induction f with
  | zero => intro n c hc; simp [natDigits] at hc
  | succ f ih =>
    intro n c hc
    by_cases h0 : n = 0
    · simp [natDigits, h0] at hc
    · simp only [natDigits, h0, if_false, List.mem_append, List.mem_singleton] at hc
      rcases hc with hc | hc
      · exact ih _ c hc
      · subst hc
        exact digitChar_isDigit _ (Nat.mod_lt _ (by norm_num))

theorem natDigits_cons : ∀ f n, 0 < n → n ≤ f →
    ∃ c t, natDigits f n = c :: t ∧ c.isDigit = true ∧ c ≠ '0' := by
  intro f
  induction f with
  | zero => intro n h0 hf; omega
  | succ f ih =>
    intro n h0 hf
    have hne : n ≠ 0 := by omega
    by_cases hq : n / 10 = 0
    · have hlt : n < 10 := by omega
      refine ⟨digitChar (n % 10), [], ?_, ?_, ?_⟩
      · simp [natDigits, hne, hq, natDigits_zero]
      · exact digitChar_isDigit _ (Nat.mod_lt _ (by norm_num))
      · have hm : n % 10 = n := Nat.mod_eq_of_lt hlt
        rw [hm]
        exact digitChar_ne_zero n h0 hlt
    · have hq1 : 0 < n / 10 := Nat.pos_of_ne_zero hq
      have hq2 : n / 10 ≤ f := by
        have := Nat.div_lt_self h0 (show 1 < 10 by norm_num)
        omega
      obtain ⟨c, t, heq, hd, hz⟩ := ih (n / 10) hq1 hq2
      exact ⟨c, t ++ [digitChar (n % 10)], by simp [natDigits, hne, heq], hd, hz⟩

theorem digitsVal_append_one (A : List Char) (d : Char) (acc : Nat) :
    digitsVal (A ++ [d]) acc = 10 * digitsVal A acc + digToNat d := by
  simp [digitsVal, List.foldl_append]

theorem digitsVal_natDigits : ∀ f n acc, 0 < n → n ≤ f →
    digitsVal (natDigits f n) acc = acc * 10 ^ (natDigits f n).length + n := by
  intro f
  induction f with
  | zero => intro n acc h0 hf; omega
  | succ f ih =>
    intro n acc h0 hf
    have hne : n ≠ 0 := by omega
    by_cases hq : n / 10 = 0
    · have hlt : n < 10 := by omega
      have hmod : n % 10 = n := Nat.mod_eq_of_lt hlt
      simp only [natDigits, hne, if_false, hq, natDigits_zero, List.nil_append,
        digitsVal, List.foldl_cons, List.foldl_nil, List.length_cons, List.length_nil]
      rw [digToNat_digitChar _ (Nat.mod_lt _ (by norm_num)), hmod]
      simp [Nat.pow_one]
      omega
    · have hq1 : 0 < n / 10 := Nat.pos_of_ne_zero hq
      have hq2 : n / 10 ≤ f := by
        have := Nat.div_lt_self h0 (show 1 < 10 by norm_num)
        omega
      simp only [natDigits, hne, if_false]
      rw [digitsVal_append_one, ih (n / 10) acc hq1 hq2,
        digToNat_digitChar _ (Nat.mod_lt _ (by norm_num))]
      simp only [List.length_append, List.length_cons, List.length_nil]
      have hpow : 10 ^ ((natDigits f (n / 10)).length + (0 + 1)) =
          10 ^ (natDigits f (n / 10)).length * 10 := by
        rw [Nat.zero_add, Nat.pow_succ]
      rw [hpow]
      have hdm := Nat.div_add_mod n 10
      ring_nf
      omega

theorem renderNat_cons (m : Nat) :
    ∃ c t, renderNat m = c :: t ∧ c.isDigit = true ∧ (∀ x ∈ t, x.isDigit = true) := by
  by_cases h0 : m = 0
  · exact ⟨'0', [], by simp [renderNat, h0], by decide, by simp⟩
  · obtain ⟨c, t, heq, hd, -⟩ := natDigits_cons m m (Nat.pos_of_ne_zero h0) le_rfl
    refine ⟨c, t, by simp [renderNat, h0, heq], hd, ?_⟩
    intro x hx
    exact natDigits_all_digits m m x (by simp [heq, hx])

theorem pNumTail_renderNat (m : Nat) (c : Char) (t rest : List Char)
    (hrender : renderNat m = c :: t) (hrest : noDigitHead rest = true) :
    pNumTail c (t ++ rest) = (m, rest) := by
  by_cases h0 : m = 0
  · subst h0
    simp [renderNat] at hrender
    obtain ⟨hc, ht⟩ := hrender
    subst hc; subst ht
    simp [pNumTail, parseDigits_stop rest 0 hrest]
  · obtain ⟨c', t', heq, hd, hz⟩ := natDigits_cons m m (Nat.pos_of_ne_zero h0) le_rfl
    have hr : renderNat m = c' :: t' := by simp [renderNat, h0, heq]
    rw [hrender] at hr
    obtain ⟨hc, ht⟩ := List.cons.inj hr
    subst hc; subst ht
    have hdig : ∀ x ∈ t, x.isDigit = true := by
      intro x hx
      exact natDigits_all_digits m m x (by simp [heq, hx])
    have hval : digitsVal (c :: t) 0 = m := by
      have h2 := digitsVal_natDigits m m 0 (Nat.pos_of_ne_zero h0) le_rfl
      rw [heq] at h2
      simpa using h2
    simp only [pNumTail, hz, if_false]
    rw [parseDigits_append t rest (digToNat c) hdig, parseDigits_stop rest _ hrest]
    have hv2 : digitsVal t (digToNat c) = m := by
      simpa [digitsVal] using hval
    rw [hv2]


theorem hexVal_hexDigitChar (k : Nat) (h : k < 16) : hexVal (hexDigitChar k) = some k := by
  unfold hexVal hexDigitChar
  interval_cases k <;> decide

theorem pHex4_hex4 (m : Nat) (hm : m < 0x10000) (rest : List Char) :
    pHex4 (hex4 m ++ rest) = some (m, rest) := by
  have h1 := hexVal_hexDigitChar (m / 4096 % 16) (Nat.mod_lt _ (by norm_num))
  have h2 := hexVal_hexDigitChar (m / 256 % 16) (Nat.mod_lt _ (by norm_num))
  have h3 := hexVal_hexDigitChar (m / 16 % 16) (Nat.mod_lt _ (by norm_num))
  have h4 := hexVal_hexDigitChar (m % 16) (Nat.mod_lt _ (by norm_num))
  simp only [hex4, List.cons_append, List.nil_append, pHex4, h1, h2, h3, h4]
  have hn : 4096 * (m / 4096 % 16) + 256 * (m / 256 % 16) + 16 * (m / 16 % 16) + m % 16 = m := by
    omega
  rw [hn]

theorem pUnicodeEscape_single (m : Nat) (hm : m < 0x10000) (hval : m < 0xd800 ∨ 0xe000 ≤ m)
    (rest : List Char) :
    pUnicodeEscape (hex4 m ++ rest) = some (Char.ofNat m, rest) := by
  simp [pUnicodeEscape, pHex4_hex4 m hm rest, hval]

theorem pUnicodeEscape_pair (m : Nat) (hge : 0x10000 ≤ m) (hlt : m < 0x110000)
    (rest : List Char) :
    pUnicodeEscape (hex4 (0xd800 + (m - 0x10000) / 1024) ++
        ('\\' :: 'u' :: (hex4 (0xdc00 + (m - 0x10000) % 1024) ++ rest))) =
      some (Char.ofNat m, rest) := by
  have hhi : 0xd800 + (m - 0x10000) / 1024 < 0xdc00 := by
    have h1 : (m - 0x10000) / 1024 < 1024 := by omega
    omega
  have hlo1 : 0xdc00 ≤ 0xdc00 + (m - 0x10000) % 1024 := by omega
  have hlo2 : 0xdc00 + (m - 0x10000) % 1024 < 0xe000 := by
    have h1 : (m - 0x10000) % 1024 < 1024 := Nat.mod_lt _ (by norm_num)
    omega
  have hc1 : ¬(0xd800 + (m - 0x10000) / 1024 < 0xd800 ∨
      0xe000 ≤ 0xd800 + (m - 0x10000) / 1024) := by omega
  have hcomb : 0x10000 + (0xd800 + (m - 0x10000) / 1024 - 0xd800) * 1024 +
      (0xdc00 + (m - 0x10000) % 1024 - 0xdc00) = m := by
    have h1 := Nat.div_add_mod (m - 0x10000) 1024
    omega
  rw [pUnicodeEscape, pHex4_hex4 (0xd800 + (m - 0x10000) / 1024) (by omega),
    Option.some_bind]
  simp only [hc1, if_false, if_pos hhi]
  rw [pHex4_hex4 (0xdc00 + (m - 0x10000) % 1024) (by omega), Option.some_bind]
  simp only [if_pos (And.intro hlo1 hlo2), hcomb]

theorem escChar_length_pos (c : Char) : 1 ≤ (escChar c).length := by
  unfold escChar
  split_ifs <;> simp [hex4]

theorem escapeList_length_ge (cs : List Char) : cs.length ≤ (escapeList cs).length := by
  induction cs with
  | nil => simp [escapeList]
  | cons c t ih =>
    simp only [escapeList, List.length_append, List.length_cons]
    have := escChar_length_pos c
    omega

theorem pStrF_esc_step (f : Nat) (e : Char) (rest2 : List Char) :
    pStrF (f + 1) ('\\' :: e :: rest2) =
      match pEscape e rest2 with
      | some d => (pStrF f d.2).map (fun p => (d.1 :: p.1, p.2))
      | none => none := by
  simp +decide only [pStrF, if_true, if_false]
  rcases pEscape e rest2 with - | ⟨d, rest3⟩ <;> simp

theorem pEscape_u (r : List Char) : pEscape 'u' r = pUnicodeEscape r := by
  simp +decide only [pEscape, if_true, if_false]

theorem pStrF_escChar (f : Nat) (c : Char) (tail : List Char) :
    pStrF (f + 1) (escChar c ++ tail) = (pStrF f tail).map (fun p => (c :: p.1, p.2)) := by
  by_cases e1 : c = '"'
  · subst e1
    show pStrF (f + 1) ('\\' :: '"' :: tail) = _
    simp +decide only [pStrF, pEscape]
    simp
  by_cases e2 : c = '\\'
  · subst e2
    show pStrF (f + 1) ('\\' :: '\\' :: tail) = _
    simp +decide only [pStrF, pEscape]
    simp
  by_cases e3 : c = '\n'
  · subst e3
    show pStrF (f + 1) ('\\' :: 'n' :: tail) = _
    simp +decide only [pStrF, pEscape]
    simp
  by_cases e4 : c = '\t'
  · subst e4
    show pStrF (f + 1) ('\\' :: 't' :: tail) = _
    simp +decide only [pStrF, pEscape]
    simp
  by_cases e5 : c = '\r'
  · subst e5
    show pStrF (f + 1) ('\\' :: 'r' :: tail) = _
    simp +decide only [pStrF, pEscape]
    simp
  by_cases e6 : c = '\x08'
  · subst e6
    show pStrF (f + 1) ('\\' :: 'b' :: tail) = _
    simp +decide only [pStrF, pEscape]
    simp
  by_cases e7 : c = '\x0c'
  · subst e7
    show pStrF (f + 1) ('\\' :: 'f' :: tail) = _
    simp +decide only [pStrF, pEscape]
    simp
  by_cases e8 : c.toNat < 0x20 ∨ 0x7f ≤ c.toNat
  · by_cases e9 : c.toNat < 0x10000
    · have hval : c.toNat < 0xd800 ∨ 0xe000 ≤ c.toNat := by
        rcases char_toNat_valid c with h | h
        · exact Or.inl h
        · exact Or.inr h.1
      rw [show escChar c = '\\' :: 'u' :: hex4 c.toNat by
        simp [escChar, e1, e2, e3, e4, e5, e6, e7, e8, e9]]
      show pStrF (f + 1) ('\\' :: 'u' :: (hex4 c.toNat ++ tail)) = _
      simp +decide only [pStrF, pEscape]
      rw [pUnicodeEscape_single c.toNat e9 hval tail, Char.ofNat_toNat]
      simp
    · have hge : 0x10000 ≤ c.toNat := by omega
      have hlt : c.toNat < 0x110000 := by
        rcases char_toNat_valid c with h | h
        · omega
        · exact h.2
      rw [show escChar c = ('\\' :: 'u' :: hex4 (0xd800 + (c.toNat - 0x10000) / 1024)) ++
            ('\\' :: 'u' :: hex4 (0xdc00 + (c.toNat - 0x10000) % 1024)) by
        simp [escChar, e1, e2, e3, e4, e5, e6, e7, e8, e9]]
      simp only [List.cons_append, List.append_assoc]
      rw [pStrF_esc_step, pEscape_u]
      rw [pUnicodeEscape_pair c.toNat hge hlt tail]
      simp [Char.ofNat_toNat]
  · have h20 : ¬ c.toNat < 0x20 := by omega
    rw [show escChar c = [c] by simp [escChar, e1, e2, e3, e4, e5, e6, e7, e8]]
    show pStrF (f + 1) (c :: tail) = _
    simp only [pStrF, e2, if_neg e1, if_neg e2, if_neg h20]
    simp

theorem pStrF_escapeList : ∀ (cs : List Char) (f : Nat) (rest : List Char), cs.length < f →
    pStrF f (escapeList cs ++ ('"' :: rest)) = some (cs, rest) := by
  intro cs
  induction cs with
  | nil =>
    intro f rest hf
    match f, hf with
    | f' + 1, _ => rfl
  | cons c t ih =>
    intro f rest hf
    match f, hf with
    | f' + 1, hf =>
      have hgoal : escapeList (c :: t) ++ ('"' :: rest) =
          escChar c ++ (escapeList t ++ ('"' :: rest)) := by
        simp [escapeList, List.append_assoc]
      rw [hgoal, pStrF_escChar f' c _, ih f' rest (by simpa using Nat.lt_of_succ_lt_succ hf)]
      rfl

theorem pStr_escapeList (cs : List Char) (rest : List Char) :
    pStr (escapeList cs ++ ('"' :: rest)) = some (cs, rest) := by
  unfold pStr
  apply pStrF_escapeList
  have := escapeList_length_ge cs
  simp only [List.length_append, List.length_cons]
  omega

theorem renderL_head (v : Json) :
    ∃ c t, renderL v = c :: t ∧
      (c = '{' ∨ c = '[' ∨ c = '"' ∨ c = '-' ∨ c.isDigit = true ∨ c = 'n' ∨ c = 't' ∨ c = 'f') := by
  cases v with
  | null => exact ⟨'n', _, rfl, by simp⟩
  | bool b => cases b with
    | true => exact ⟨'t', _, rfl, by simp⟩
    | false => exact ⟨'f', _, rfl, by simp⟩
  | num n =>
    by_cases hn : n < 0
    · exact ⟨'-', renderNat n.natAbs, by simp [renderL, renderInt, hn], by simp⟩
    · obtain ⟨c, t, heq, hd, -⟩ := renderNat_cons n.natAbs
      exact ⟨c, t, by simp [renderL, renderInt, hn, heq], by simp [hd]⟩
  | str s =>
    exact ⟨'"', escapeList s.data ++ ['"'], by simp [renderL, renderString], by simp⟩
  | arr l => exact ⟨'[', renderElems l ++ [']'], by simp [renderL], by simp⟩
  | obj fs => exact ⟨'{', renderFieldsL fs ++ ['}'], by simp [renderL], by simp⟩

theorem renderL_last (v : Json) :
    ∃ t c, renderL v = t ++ [c] ∧
      (c = '}' ∨ c = ']' ∨ c = '"' ∨ c.isDigit = true ∨ c = 'l' ∨ c = 'e') := by
  cases v with
  | null => exact ⟨['n', 'u', 'l'], 'l', rfl, by simp⟩
  | bool b => cases b with
    | true => exact ⟨['t', 'r', 'u'], 'e', rfl, by simp⟩
    | false => exact ⟨['f', 'a', 'l', 's'], 'e', rfl, by simp⟩
  | num n =>
    have hnat : ∀ m : Nat, ∃ t c, renderNat m = t ++ [c] ∧ c.isDigit = true := by
      intro m
      by_cases h0 : m = 0
      · exact ⟨[], '0', by simp [renderNat, h0], by decide⟩
      · have hm : natDigits m m = natDigits (m - 1 + 1) m := by
          congr 1
          omega
        refine ⟨natDigits (m - 1) (m / 10), digitChar (m % 10), ?_, ?_⟩
        · simp [renderNat, h0, hm, natDigits]
        · exact digitChar_isDigit _ (Nat.mod_lt _ (by norm_num))
    obtain ⟨t, c, heq, hd⟩ := hnat n.natAbs
    by_cases hn : n < 0
    · exact ⟨'-' :: t, c, by simp [renderL, renderInt, hn, heq], by simp [hd]⟩
    · exact ⟨t, c, by simp [renderL, renderInt, hn, heq], by simp [hd]⟩
  | str s =>
    exact ⟨'"' :: escapeList s.data, '"', by simp [renderL, renderString], by simp⟩
  | arr l => exact ⟨'[' :: renderElems l, ']', by simp [renderL], by simp⟩
  | obj fs => exact ⟨'{' :: renderFieldsL fs, '}', by simp [renderL], by simp⟩

theorem isJsonWs_of_headClass {c : Char}
    (h : c = '{' ∨ c = '[' ∨ c = '"' ∨ c = '-' ∨ c.isDigit = true ∨ c = 'n' ∨ c = 't' ∨ c = 'f') :
    isJsonWs c = false := by
  rcases h with rfl | rfl | rfl | rfl | hd | rfl | rfl | rfl <;> try decide
  simp only [isJsonWs]
  have h1 : ¬ c = ' ' := by rintro rfl; simp at hd
  have h2 : ¬ c = '\t' := by rintro rfl; simp at hd
  have h3 : ¬ c = '\n' := by rintro rfl; simp at hd
  have h4 : ¬ c = '\r' := by rintro rfl; simp at hd
  simp [h1, h2, h3, h4]

theorem renderL_head_notWs (v : Json) :
    ∃ c t, renderL v = c :: t ∧ isJsonWs c = false := by
  obtain ⟨c, t, heq, hc⟩ := renderL_head v
  exact ⟨c, t, heq, isJsonWs_of_headClass hc⟩

theorem skipWs_cons_not {c : Char} (t : List Char) (h : isJsonWs c = false) :
    skipWs (c :: t) = c :: t := by
  simp [skipWs, List.dropWhile_cons, h]

theorem skipWs_ws_cons {c : Char} (t : List Char) (h : isJsonWs c = true) :
    skipWs (c :: t) = skipWs t := by
  simp [skipWs, List.dropWhile_cons, h]

theorem skipWs_renderL (v : Json) (rest : List Char) :
    skipWs (renderL v ++ rest) = renderL v ++ rest := by
  obtain ⟨c, t, heq, hc⟩ := renderL_head_notWs v
  rw [heq, List.cons_append, skipWs_cons_not _ hc]

theorem pv_openBrace (f : Nat) (rest : List Char) :
    pv (f + 1) ('{' :: rest) =
      (match skipWs rest with
       | [] => none
       | d :: r2 => if d = '}' then some (.obj [], r2) else pFields f (d :: r2)) := by
  simp +decide only [pv, if_true, if_false]

theorem pv_openBracket (f : Nat) (rest : List Char) :
    pv (f + 1) ('[' :: rest) =
      (match skipWs rest with
       | [] => none
       | d :: r2 => if d = ']' then some (.arr [], r2) else pElems f (d :: r2)) := by
  simp +decide only [pv, if_true, if_false]

theorem pv_quote (f : Nat) (rest : List Char) :
    pv (f + 1) ('"' :: rest) = (pStr rest).map (fun p => (.str (String.mk p.1), p.2)) := by
  simp +decide only [pv, if_true, if_false]

theorem pv_null (f : Nat) (rest : List Char) :
    pv (f + 1) ('n' :: 'u' :: 'l' :: 'l' :: rest) = some (.null, rest) := by
  simp +decide only [pv, if_true, if_false, List.take, List.drop]

theorem pv_true (f : Nat) (rest : List Char) :
    pv (f + 1) ('t' :: 'r' :: 'u' :: 'e' :: rest) = some (.bool true, rest) := by
  simp +decide only [pv, if_true, if_false, List.take, List.drop]

theorem pv_false (f : Nat) (rest : List Char) :
    pv (f + 1) ('f' :: 'a' :: 'l' :: 's' :: 'e' :: rest) = some (.bool false, rest) := by
  simp +decide only [pv, if_true, if_false, List.take, List.drop]

theorem pv_minus (f : Nat) (rest : List Char) :
    pv (f + 1) ('-' :: rest) =
      (match rest with
       | [] => none
       | d :: rest2 =>
         if d.isDigit then
           let p := pNumTail d rest2
           if floatFollows p.2 then none else some (.num (-(p.1 : Int)), p.2)
         else none) := by
  simp +decide only [pv, if_true, if_false]

theorem pv_digit (f : Nat) (c : Char) (rest : List Char) (hc : c.isDigit = true) :
    pv (f + 1) (c :: rest) =
      (let p := pNumTail c rest
       if floatFollows p.2 then none else some (.num (p.1 : Int), p.2)) := by
  have n1 : ¬ c = '{' := by rintro rfl; simp at hc
  have n2 : ¬ c = '[' := by rintro rfl; simp at hc
  have n3 : ¬ c = '"' := by rintro rfl; simp at hc
  have n4 : ¬ c = 'n' := by rintro rfl; simp at hc
  have n5 : ¬ c = 't' := by rintro rfl; simp at hc
  have n6 : ¬ c = 'f' := by rintro rfl; simp at hc
  have n7 : ¬ c = '-' := by rintro rfl; simp at hc
  simp only [pv, if_neg n1, if_neg n2, if_neg n3, if_neg n4, if_neg n5, if_neg n6, if_neg n7,
    hc, if_true]

theorem String_mk_data (s : String) : String.mk s.data = s := by
  cases s
  rfl

theorem boundaryOk_comma (t : List Char) : boundaryOk (',' :: t) = true := by
  simp +decide [boundaryOk]

theorem boundaryOk_rbracket (t : List Char) : boundaryOk (']' :: t) = true := by
  simp +decide [boundaryOk]

theorem boundaryOk_rbrace (t : List Char) : boundaryOk ('}' :: t) = true := by
  simp +decide [boundaryOk]

theorem pv_renderInt (f : Nat) (i : Int) (rest : List Char) (hb : boundaryOk rest = true) :
    pv (f + 1) (renderInt i ++ rest) = some (.num i, rest) := by
  have hnd : noDigitHead rest = true := boundaryOk_noDigitHead hb
  have hff : floatFollows rest = false := boundaryOk_floatFollows hb
  by_cases hn : i < 0
  · have hpos : i.natAbs ≠ 0 := by omega
    obtain ⟨c, t, heq, hd, -⟩ := renderNat_cons i.natAbs
    rw [show renderInt i ++ rest = '-' :: ((c :: t) ++ rest) by
      simp [renderInt, hn, heq]]
    rw [pv_minus]
    simp only [List.cons_append, hd, if_true]
    have hnum := pNumTail_renderNat i.natAbs c t rest heq hnd
    simp only [hnum, hff]
    rw [if_neg (by simp : ¬(false = true))]
    have hcast : (-(i.natAbs : Int)) = i := by omega
    rw [hcast]
  · obtain ⟨c, t, heq, hd, -⟩ := renderNat_cons i.natAbs
    rw [show renderInt i ++ rest = c :: (t ++ rest) by
      simp [renderInt, hn, heq]]
    rw [pv_digit f c (t ++ rest) hd]
    have hnum := pNumTail_renderNat i.natAbs c t rest heq hnd
    simp only [hnum, hff]
    rw [if_neg (by simp : ¬(false = true))]
    have hcast : ((i.natAbs : Int)) = i := by omega
    rw [hcast]

theorem pv_renderString (f : Nat) (s : String) (rest : List Char) :
    pv (f + 1) (renderString s ++ rest) = some (.str s, rest) := by
  rw [show renderString s ++ rest = '"' :: (escapeList s.data ++ ('"' :: rest)) by
    simp [renderString]]
  rw [pv_quote, pStr_escapeList]
  simp [String_mk_data]

theorem renderElems_cons_head (v : Json) (vs : List Json) :
    ∃ c t, renderElems (v :: vs) = c :: t ∧ isJsonWs c = false := by
  obtain ⟨c, t, heq, hc⟩ := renderL_head_notWs v
  cases vs with
  | nil => exact ⟨c, t, by simp [renderElems, heq], hc⟩
  | cons v2 vs2 =>
    exact ⟨c, t ++ ',' :: ' ' :: renderElems (v2 :: vs2), by simp [renderElems, heq], hc⟩

theorem renderFieldsL_cons_head (k : String) (v : Json) (fs : List (String × Json)) :
    ∃ t, renderFieldsL ((k, v) :: fs) = '"' :: t := by
  cases fs with
  | nil => exact ⟨escapeList k.data ++ ['"'] ++ (':' :: ' ' :: renderL v), by
      simp [renderFieldsL, renderString]⟩
  | cons p fs2 =>
    exact ⟨escapeList k.data ++ ['"'] ++ (':' :: ' ' :: renderL v) ++
      (',' :: ' ' :: renderFieldsL (p :: fs2)), by simp [renderFieldsL, renderString]⟩

theorem jsize_pos (v : Json) : 1 ≤ jsize v := by
  cases v <;> simp [jsize]

theorem skipWs_rbracket (t : List Char) : skipWs (']' :: t) = ']' :: t :=
  skipWs_cons_not t (by decide)

theorem skipWs_rbrace (t : List Char) : skipWs ('}' :: t) = '}' :: t :=
  skipWs_cons_not t (by decide)

theorem skipWs_comma (t : List Char) : skipWs (',' :: t) = ',' :: t :=
  skipWs_cons_not t (by decide)

theorem skipWs_colon (t : List Char) : skipWs (':' :: t) = ':' :: t :=
  skipWs_cons_not t (by decide)

theorem headClass_ne {c : Char}
    (h : c = '{' ∨ c = '[' ∨ c = '"' ∨ c = '-' ∨ c.isDigit = true ∨ c = 'n' ∨ c = 't' ∨ c = 'f') :
    c ≠ ']' ∧ c ≠ '}' := by
  constructor
  · rcases h with rfl | rfl | rfl | rfl | hd | rfl | rfl | rfl <;> first
      | decide
      | (rintro rfl; simp at hd)
  · rcases h with rfl | rfl | rfl | rfl | hd | rfl | rfl | rfl <;> first
      | decide
      | (rintro rfl; simp at hd)

theorem renderL_head_full (v : Json) :
    ∃ c t, renderL v = c :: t ∧ isJsonWs c = false ∧ c ≠ ']' ∧ c ≠ '}' := by
  obtain ⟨c, t, heq, hcl⟩ := renderL_head v
  obtain ⟨h1, h2⟩ := headClass_ne hcl
  exact ⟨c, t, heq, isJsonWs_of_headClass hcl, h1, h2⟩

theorem pv_render_conj : ∀ fuel : Nat,
    (∀ v rest, jsize v ≤ fuel → boundaryOk rest = true →
       pv fuel (renderL v ++ rest) = some (v, rest)) ∧
    (∀ l rest, l ≠ [] → jsizeList l ≤ fuel → boundaryOk rest = true →
       pElems fuel (renderElems l ++ (']' :: rest)) = some (.arr l, rest)) ∧
    (∀ fs rest, fs ≠ [] → jsizeObj fs ≤ fuel → boundaryOk rest = true →
       pFields fuel (renderFieldsL fs ++ ('}' :: rest)) = some (.obj fs, rest)) := by
  intro fuel
  induction fuel with
  | zero =>
    refine ⟨?_, ?_, ?_⟩
    · intro v rest hsz _
      have := jsize_pos v
      omega
    · intro l rest hne hsz _
      cases l with
      | nil => exact absurd rfl hne
      | cons v vs =>
        simp [jsizeList] at hsz
    · intro fs rest hne hsz _
      cases fs with
      | nil => exact absurd rfl hne
      | cons p fs2 =>
        obtain ⟨k, v⟩ := p
        simp [jsizeObj] at hsz
  | succ f ih =>
    obtain ⟨ihP, ihQ, ihR⟩ := ih
    refine ⟨?_, ?_, ?_⟩
    · intro v rest hsz hb
      cases v with
      | null =>
        rw [show renderL .null ++ rest = 'n' :: 'u' :: 'l' :: 'l' :: rest by simp [renderL]]
        exact pv_null f rest
      | bool b =>
        cases b with
        | false =>
          rw [show renderL (.bool false) ++ rest = 'f' :: 'a' :: 'l' :: 's' :: 'e' :: rest by
            simp [renderL]]
          exact pv_false f rest
        | true =>
          rw [show renderL (.bool true) ++ rest = 't' :: 'r' :: 'u' :: 'e' :: rest by
            simp [renderL]]
          exact pv_true f rest
      | num n =>
        rw [show renderL (.num n) = renderInt n by simp [renderL]]
        exact pv_renderInt f n rest hb
      | str s =>
        rw [show renderL (.str s) = renderString s by simp [renderL]]
        exact pv_renderString f s rest
      | arr l =>
        rw [show renderL (.arr l) ++ rest = '[' :: (renderElems l ++ (']' :: rest)) by
          simp [renderL]]
        rw [pv_openBracket]
        cases l with
        | nil =>
          rw [show renderElems ([] : List Json) ++ (']' :: rest) = ']' :: rest by
            simp [renderElems]]
          rw [skipWs_rbracket]
          simp
        | cons v vs =>
          obtain ⟨c, t, heq, hc⟩ := renderElems_cons_head v vs
          obtain ⟨c2, t2, heq2, -, hne1, -⟩ := renderL_head_full v
          have hc2 : c ≠ ']' := by
            cases vs with
            | nil =>
              simp [renderElems, heq2] at heq
              exact heq.1 ▸ hne1
            | cons v3 vs3 =>
              simp [renderElems, heq2] at heq
              exact heq.1 ▸ hne1
          have hshape : renderElems (v :: vs) ++ (']' :: rest) = c :: (t ++ (']' :: rest)) := by
            simp [heq]
          rw [hshape, skipWs_cons_not _ hc]
          have hszl : jsizeList (v :: vs) ≤ f := by
            simp only [jsize] at hsz
            omega
          have hq := ihQ (v :: vs) rest (by simp) hszl hb
          rw [hshape] at hq
          simp [hc2, hq]
      | obj fs =>
        rw [show renderL (.obj fs) ++ rest = '{' :: (renderFieldsL fs ++ ('}' :: rest)) by
          simp [renderL]]
        rw [pv_openBrace]
        cases fs with
        | nil =>
          rw [show renderFieldsL ([] : List (String × Json)) ++ ('}' :: rest) = '}' :: rest by
            simp [renderFieldsL]]
          rw [skipWs_rbrace]
          simp
        | cons p fs2 =>
          obtain ⟨k, v⟩ := p
          obtain ⟨t, heq⟩ := renderFieldsL_cons_head k v fs2
          have hshape : renderFieldsL ((k, v) :: fs2) ++ ('}' :: rest) =
              '"' :: (t ++ ('}' :: rest)) := by
            simp [heq]
          rw [hshape, skipWs_cons_not _ (by decide)]
          have hszo : jsizeObj ((k, v) :: fs2) ≤ f := by
            simp only [jsize] at hsz
            omega
          have hr := ihR ((k, v) :: fs2) rest (by simp) hszo hb
          rw [hshape] at hr
          simp +decide [hr]
    · intro l rest hne hsz hb
      match l, hne with
      | v :: vs, _ =>
        cases vs with
        | nil =>
          have hsz2 : jsize v ≤ f := by
            simp only [jsizeList] at hsz
            omega
          simp only [pElems, renderElems]
          rw [ihP v (']' :: rest) hsz2 (boundaryOk_rbracket rest)]
          simp +decide [skipWs_rbracket]
        | cons v2 vs2 =>
          have hsz2 : jsize v ≤ f := by
            simp only [jsizeList] at hsz
            omega
          have hsz3 : jsizeList (v2 :: vs2) ≤ f := by
            simp only [jsizeList] at hsz ⊢
            omega
          have hsplit : renderElems (v :: v2 :: vs2) ++ (']' :: rest) =
              renderL v ++ (',' :: ' ' :: (renderElems (v2 :: vs2) ++ (']' :: rest))) := by
            simp [renderElems]
          simp only [pElems, hsplit]
          rw [ihP v _ hsz2 (boundaryOk_comma _)]
          have hs2 : skipWs (' ' :: (renderElems (v2 :: vs2) ++ (']' :: rest))) =
              renderElems (v2 :: vs2) ++ (']' :: rest) := by
            rw [skipWs_ws_cons _ (by decide)]
            obtain ⟨c, t, heq, hc⟩ := renderElems_cons_head v2 vs2
            rw [show renderElems (v2 :: vs2) ++ (']' :: rest) = c :: (t ++ (']' :: rest)) by
              simp [heq]]
            exact skipWs_cons_not _ hc
          have hq := ihQ (v2 :: vs2) rest (by simp) hsz3 hb
          simp +decide [skipWs_comma, hs2, hq]
    · intro fs rest hne hsz hb
      match fs, hne with
      | (k, v) :: fs2, _ =>
        cases fs2 with
        | nil =>
          have hsz2 : jsize v ≤ f := by
            simp only [jsizeObj] at hsz
            omega
          have hshape : renderFieldsL [(k, v)] ++ ('}' :: rest) =
              '"' :: (escapeList k.data ++ ('"' :: (':' :: ' ' :: (renderL v ++ ('}' :: rest))))) := by
            simp [renderFieldsL, renderString]
          rw [hshape]
          have hswv : skipWs (' ' :: (renderL v ++ ('}' :: rest))) =
              renderL v ++ ('}' :: rest) := by
            rw [skipWs_ws_cons _ (by decide)]
            exact skipWs_renderL v _
          have hpv := ihP v ('}' :: rest) hsz2 (boundaryOk_rbrace rest)
          simp +decide [pFields, pStr_escapeList, skipWs_colon, hswv, hpv, skipWs_rbrace,
            String_mk_data]
        | cons p2 fs3 =>
          obtain ⟨k2, v2⟩ := p2
          have hsz2 : jsize v ≤ f := by
            simp only [jsizeObj] at hsz
            omega
          have hsz3 : jsizeObj ((k2, v2) :: fs3) ≤ f := by
            simp only [jsizeObj] at hsz ⊢
            omega
          have hshape : renderFieldsL ((k, v) :: (k2, v2) :: fs3) ++ ('}' :: rest) =
              '"' :: (escapeList k.data ++ ('"' :: (':' :: ' ' :: (renderL v ++
                (',' :: ' ' :: (renderFieldsL ((k2, v2) :: fs3) ++ ('}' :: rest))))))) := by
            simp [renderFieldsL, renderString]
          rw [hshape]
          have hswv : skipWs (' ' :: (renderL v ++ (',' :: ' ' ::
              (renderFieldsL ((k2, v2) :: fs3) ++ ('}' :: rest))))) =
              renderL v ++ (',' :: ' ' :: (renderFieldsL ((k2, v2) :: fs3) ++ ('}' :: rest))) := by
            rw [skipWs_ws_cons _ (by decide)]
            exact skipWs_renderL v _
          have hs3 : skipWs (' ' :: (renderFieldsL ((k2, v2) :: fs3) ++ ('}' :: rest))) =
              renderFieldsL ((k2, v2) :: fs3) ++ ('}' :: rest) := by
            rw [skipWs_ws_cons _ (by decide)]
            obtain ⟨t3, heq3⟩ := renderFieldsL_cons_head k2 v2 fs3
            rw [show renderFieldsL ((k2, v2) :: fs3) ++ ('}' :: rest) =
              '"' :: (t3 ++ ('}' :: rest)) by simp [heq3]]
            exact skipWs_cons_not _ (by decide)
          have hpv := ihP v (',' :: ' ' :: (renderFieldsL ((k2, v2) :: fs3) ++ ('}' :: rest)))
            hsz2 (boundaryOk_comma _)
          have hr := ihR ((k2, v2) :: fs3) rest (by simp) hsz3 hb
          simp +decide [pFields, pStr_escapeList, skipWs_colon, hswv, hpv, skipWs_comma,
            hs3, hr, String_mk_data]

theorem renderInt_length_pos (i : Int) : 1 ≤ (renderInt i).length := by
  obtain ⟨c, t, heq, -, -⟩ := renderNat_cons i.natAbs
  by_cases hn : i < 0 <;> simp [renderInt, hn, heq]

mutual
theorem jsize_le_renderL : ∀ v : Json, jsize v ≤ (renderL v).length
  | .null => by simp [jsize, renderL]
  | .bool b => by cases b <;> simp [jsize, renderL]
  | .num n => by
    have := renderInt_length_pos n
    simp only [jsize, renderL]
    omega
  | .str s => by simp [jsize, renderL, renderString]
  | .arr l => by
    have := jsizeList_le_renderElems l
    simp only [jsize, renderL, List.length_cons, List.length_append, List.length_nil]
    omega
  | .obj l => by
    have := jsizeObj_le_renderFieldsL l
    simp only [jsize, renderL, List.length_cons, List.length_append, List.length_nil]
    omega
theorem jsizeList_le_renderElems : ∀ l : List Json, jsizeList l ≤ (renderElems l).length + 1
  | [] => by simp [jsizeList]
  | [v] => by
    have := jsize_le_renderL v
    simp only [jsizeList, renderElems, List.length_nil]
    omega
  | v :: v2 :: vs => by
    have h1 := jsize_le_renderL v
    have h2 := jsizeList_le_renderElems (v2 :: vs)
    simp only [jsizeList] at h2
    simp only [jsizeList, renderElems, List.length_append, List.length_cons]
    omega
theorem jsizeObj_le_renderFieldsL :
    ∀ fs : List (String × Json), jsizeObj fs ≤ (renderFieldsL fs).length + 1
  | [] => by simp [jsizeObj]
  | [(k, v)] => by
    have := jsize_le_renderL v
    simp only [jsizeObj, renderFieldsL, List.length_append, List.length_cons, List.length_nil,
      renderString]
    omega
  | (k, v) :: p :: fs => by
    have h1 := jsize_le_renderL v
    have h2 := jsizeObj_le_renderFieldsL (p :: fs)
    obtain ⟨k2, v2⟩ := p
    simp only [jsizeObj] at h2
    simp only [jsizeObj, renderFieldsL, List.length_append, List.length_cons, renderString]
    omega
end

theorem skipWs_renderL_nil (v : Json) : skipWs (renderL v) = renderL v := by
  have h := skipWs_renderL v []
  simpa using h

theorem loadsL_renderL (v : Json) : loadsL (renderL v) = some v := by
  unfold loadsL
  rw [skipWs_renderL_nil v]
  have hfuel : jsize v ≤ 2 * (renderL v).length + 2 := by
    have := jsize_le_renderL v
    omega
  have hP := (pv_render_conj (2 * (renderL v).length + 2)).1 v [] hfuel (by rfl)
  rw [List.append_nil] at hP
  simp only [hP]
  rfl

theorem json_loads_render (v : Json) : json_loads (render v) = some v := by
  show loadsL (String.mk (renderL v)).data = some v
  exact loadsL_renderL v

/-- Python whitespace for `str.strip()` and the regex `\s` class
(ASCII portion). -/
def isPyWs (c : Char) : Bool :=
  c = ' ' || c = '\t' || c = '\n' || c = '\r' || c = '\x0b' || c = '\x0c'

/-- Model of Python `str.strip()` on a character list. -/
def pyStrip (cs : List Char) : List Char :=
  ((cs.dropWhile isPyWs).reverse.dropWhile isPyWs).reverse

/-- Suffix just after the first occurrence of a ``` fence, scanning left to
right as `re.search` does. -/
def findTick : List Char → Option (List Char)
  | c1 :: c2 :: c3 :: rest =>
    if c1 = '`' ∧ c2 = '`' ∧ c3 = '`' then some rest else findTick (c2 :: c3 :: rest)
  | _ => none

/-- Content before the next ``` fence, or `none` when no fence follows. -/
def takeTick : List Char → Option (List Char)
  | c1 :: c2 :: c3 :: rest =>
    if c1 = '`' ∧ c2 = '`' ∧ c3 = '`' then some []
    else (takeTick (c2 :: c3 :: rest)).map (c1 :: ·)
  | _ => none

/-- Does the text contain a ``` fence at all? -/
def hasTriple : List Char → Bool
  | c1 :: c2 :: c3 :: rest =>
    (decide (c1 = '`') && decide (c2 = '`') && decide (c3 = '`')) ||
      hasTriple (c2 :: c3 :: rest)
  | _ => false

/-- Model of the first `re.search` of `json_utils.py`, the pattern
```` ```(?:json)?\s*([\s\S]*?)\s*``` ````: locate the first fence, optionally
skip a literal `json` tag, and return the (unstripped) text before the next
fence.  The caller strips it, which absorbs the `\s*` groups. -/
def fencedContent (cs : List Char) : Option (List Char) :=
  match findTick cs with
  | none => none
  | some rest =>
    let rest2 := if rest.take 4 = ['j', 's', 'o', 'n'] then rest.drop 4 else rest
    takeTick rest2

/-- Model of a greedy `copen[\s\S]*cclose` search (as in the regexes
`\{[\s\S]*\}` and `\[[\s\S]*\]`): the span from the first `copen` to the
last `cclose` after it, when both exist. -/
def braceSpan (copen cclose : Char) (cs : List Char) : Option (List Char) :=
  if ((cs.dropWhile (fun c => !(c = copen))).reverse.dropWhile
      (fun c => !(c = cclose))).isEmpty then none
  else some ((cs.dropWhile (fun c => !(c = copen))).reverse.dropWhile
      (fun c => !(c = cclose))).reverse

/-- Stages 2 to 4 of `extract_json_from_text`: direct parse, then the object
span, then the array span. -/
def extractTail (cs : List Char) : Option Json :=
  match loadsL cs with
  | some v => some v
  | none =>
    match braceSpan '{' '}' cs with
    | some span =>
      match loadsL span with
      | some v => some v
      | none =>
        match braceSpan '[' ']' cs with
        | some span2 => loadsL span2
        | none => none
    | none =>
      match braceSpan '[' ']' cs with
      | some span2 => loadsL span2
      | none => none

/-- Model of `extract_json_from_text` (src/agents/solve/utils/json_utils.py):
empty text gives `None`; then the fenced code block is tried, then the whole
text, then the outermost object span, then the outermost array span. -/
def extract_json_from_text (text : String) : Option Json :=
  if text.data = [] then none
  else
    match fencedContent text.data with
    | some content =>
      match loadsL (pyStrip content) with
      | some v => some v
      | none => extractTail text.data
    | none => extractTail text.data

example : extract_json_from_text "not json at all" = none := by decide
example : extract_json_from_text "```json\n[1, 2]\n```" = some (Json.arr [Json.num 1, Json.num 2]) := by decide
example : extract_json_from_text "noise [1] noise" = some (Json.arr [Json.num 1]) := by decide
example : extract_json_from_text ("noise " ++ render (Json.arr [Json.obj [("a", Json.num 1)]]) ++ " noise") =
    some (Json.obj [("a", Json.num 1)]) := by decide

theorem hasTriple_short : ∀ cs : List Char, cs.length < 3 → hasTriple cs = false
  | [], _ => rfl
  | [_], _ => rfl
  | [_, _], _ => rfl
  | _ :: _ :: _ :: _, h => by simp at h; omega

theorem hasTriple_step (c1 c2 c3 : Char) (rest : List Char) :
    hasTriple (c1 :: c2 :: c3 :: rest) =
      ((decide (c1 = '`') && decide (c2 = '`') && decide (c3 = '`')) ||
        hasTriple (c2 :: c3 :: rest)) := rfl

theorem findTick_step (c1 c2 c3 : Char) (rest : List Char) :
    findTick (c1 :: c2 :: c3 :: rest) =
      if c1 = '`' ∧ c2 = '`' ∧ c3 = '`' then some rest else findTick (c2 :: c3 :: rest) := rfl

theorem takeTick_step (c1 c2 c3 : Char) (rest : List Char) :
    takeTick (c1 :: c2 :: c3 :: rest) =
      if c1 = '`' ∧ c2 = '`' ∧ c3 = '`' then some []
      else (takeTick (c2 :: c3 :: rest)).map (c1 :: ·) := rfl

theorem hasTriple_cons_not {c : Char} (cs : List Char) (h : c ≠ '`') :
    hasTriple (c :: cs) = hasTriple cs := by
  match cs with
  | [] => rfl
  | [a] => rfl
  | a :: b :: t =>
    rw [hasTriple_step]
    simp [h]

theorem findTick_fence (rest : List Char) : findTick ('`' :: '`' :: '`' :: rest) = some rest := by
  rw [findTick_step]
  simp

theorem takeTick_fence_head (ys : List Char) :
    takeTick ('`' :: '`' :: '`' :: ys) = some [] := by
  rw [takeTick_step]
  simp

theorem findTick_none : ∀ cs, hasTriple cs = false → findTick cs = none
  | [], _ => rfl
  | [_], _ => rfl
  | [_, _], _ => rfl
  | c1 :: c2 :: c3 :: rest, hx => by
    rw [hasTriple_step] at hx
    have h1 := (Bool.or_eq_false_iff.mp hx).1
    have h2 := (Bool.or_eq_false_iff.mp hx).2
    rw [findTick_step, if_neg (by simpa using h1)]
    exact findTick_none (c2 :: c3 :: rest) h2

theorem hasTriple_append : ∀ xs ys, hasTriple xs = false → hasTriple ys = false →
    ys.head? ≠ some '`' → hasTriple (xs ++ ys) = false
  | [], ys, _, hy, _ => by simpa using hy
  | [x], ys, hx, hy, hh => by
    match ys, hy, hh with
    | [], _, _ => rfl
    | [y1], _, _ => rfl
    | y1 :: y2 :: t, hy, hh =>
      have hy1 : y1 ≠ '`' := by simpa using hh
      simp only [List.cons_append, List.nil_append]
      rw [hasTriple_step]
      simp [hy1, hy]
  | [x1, x2], ys, hx, hy, hh => by
    match ys, hy, hh with
    | [], _, _ => rfl
    | y1 :: t, hy, hh =>
      have hy1 : y1 ≠ '`' := by simpa using hh
      have hrec := hasTriple_append [x2] (y1 :: t) (hasTriple_short [x2] (by simp)) hy hh
      simp only [List.cons_append, List.nil_append] at hrec ⊢
      rw [hasTriple_step]
      simp [hy1, hrec]
  | x1 :: x2 :: x3 :: xs3, ys, hx, hy, hh => by
    rw [hasTriple_step] at hx
    have h1 := (Bool.or_eq_false_iff.mp hx).1
    have h2 := (Bool.or_eq_false_iff.mp hx).2
    have hrec := hasTriple_append (x2 :: x3 :: xs3) ys h2 hy hh
    simp only [List.cons_append] at hrec ⊢
    rw [hasTriple_step]
    simp only [hrec, Bool.or_false]
    simpa using h1

theorem takeTick_exact : ∀ xs ys, hasTriple xs = false → xs.getLast? ≠ some '`' →
    takeTick (xs ++ ('`' :: '`' :: '`' :: ys)) = some xs
  | [], ys, _, _ => by simpa using takeTick_fence_head ys
  | [x], ys, hx, hl => by
    have hxt : x ≠ '`' := by simpa using hl
    simp only [List.cons_append, List.nil_append]
    rw [takeTick_step, if_neg (by simp [hxt]), takeTick_fence_head ys]
    rfl
  | [x1, x2], ys, hx, hl => by
    have hx2 : x2 ≠ '`' := by simpa using hl
    have hrec := takeTick_exact [x2] ys (hasTriple_short [x2] (by simp)) (by simpa using hl)
    simp only [List.cons_append, List.nil_append] at hrec ⊢
    rw [takeTick_step, if_neg (by simp [hx2]), hrec]
    rfl
  | x1 :: x2 :: x3 :: xs3, ys, hx, hl => by
    rw [hasTriple_step] at hx
    have h1 := (Bool.or_eq_false_iff.mp hx).1
    have h2 := (Bool.or_eq_false_iff.mp hx).2
    have hl' : (x2 :: x3 :: xs3).getLast? ≠ some '`' := by
      rwa [List.getLast?_cons_cons] at hl
    have hrec := takeTick_exact (x2 :: x3 :: xs3) ys h2 hl'
    simp only [List.cons_append] at hrec ⊢
    rw [takeTick_step, if_neg (by simpa using h1), hrec]
    rfl

theorem isPyWs_of_headClass {c : Char}
    (h : c = '{' ∨ c = '[' ∨ c = '"' ∨ c = '-' ∨ c.isDigit = true ∨ c = 'n' ∨ c = 't' ∨ c = 'f') :
    isPyWs c = false := by
  rcases h with rfl | rfl | rfl | rfl | hd | rfl | rfl | rfl <;> try decide
  simp only [isPyWs]
  have h1 : ¬ c = ' ' := by rintro rfl; simp at hd
  have h2 : ¬ c = '\t' := by rintro rfl; simp at hd
  have h3 : ¬ c = '\n' := by rintro rfl; simp at hd
  have h4 : ¬ c = '\r' := by rintro rfl; simp at hd
  have h5 : ¬ c = '\x0b' := by rintro rfl; simp at hd
  have h6 : ¬ c = '\x0c' := by rintro rfl; simp at hd
  simp [h1, h2, h3, h4, h5, h6]

theorem tick_not_headClass {c : Char}
    (h : c = '{' ∨ c = '[' ∨ c = '"' ∨ c = '-' ∨ c.isDigit = true ∨ c = 'n' ∨ c = 't' ∨ c = 'f') :
    c ≠ '`' := by
  rcases h with rfl | rfl | rfl | rfl | hd | rfl | rfl | rfl <;> first
    | decide
    | (rintro rfl; simp at hd)

theorem isPyWs_of_lastClass {c : Char}
    (h : c = '}' ∨ c = ']' ∨ c = '"' ∨ c.isDigit = true ∨ c = 'l' ∨ c = 'e') :
    isPyWs c = false := by
  rcases h with rfl | rfl | rfl | hd | rfl | rfl <;> try decide
  simp only [isPyWs]
  have h1 : ¬ c = ' ' := by rintro rfl; simp at hd
  have h2 : ¬ c = '\t' := by rintro rfl; simp at hd
  have h3 : ¬ c = '\n' := by rintro rfl; simp at hd
  have h4 : ¬ c = '\r' := by rintro rfl; simp at hd
  have h5 : ¬ c = '\x0b' := by rintro rfl; simp at hd
  have h6 : ¬ c = '\x0c' := by rintro rfl; simp at hd
  simp [h1, h2, h3, h4, h5, h6]

theorem tick_not_lastClass {c : Char}
    (h : c = '}' ∨ c = ']' ∨ c = '"' ∨ c.isDigit = true ∨ c = 'l' ∨ c = 'e') :
    c ≠ '`' := by
  rcases h with rfl | rfl | rfl | hd | rfl | rfl <;> first
    | decide
    | (rintro rfl; simp at hd)

theorem renderL_head_ext (v : Json) :
    ∃ c t, renderL v = c :: t ∧ isPyWs c = false ∧ c ≠ '`' := by
  obtain ⟨c, t, heq, hcl⟩ := renderL_head v
  exact ⟨c, t, heq, isPyWs_of_headClass hcl, tick_not_headClass hcl⟩

theorem renderL_last_ext (v : Json) :
    ∃ t c, renderL v = t ++ [c] ∧ isPyWs c = false ∧ c ≠ '`' := by
  obtain ⟨t, c, heq, hcl⟩ := renderL_last v
  exact ⟨t, c, heq, isPyWs_of_lastClass hcl, tick_not_lastClass hcl⟩

theorem dropWhile_append_all {p : Char → Bool} : ∀ (A X : List Char),
    (∀ x ∈ A, p x = true) → List.dropWhile p (A ++ X) = List.dropWhile p X
  | [], X, _ => by simp
  | a :: A2, X, h => by
    have ha : p a = true := h a (by simp)
    simp only [List.cons_append, List.dropWhile_cons, ha, if_true]
    exact dropWhile_append_all A2 X (fun x hx => h x (by simp [hx]))

theorem pyStrip_newline_wrap (v : Json) :
    pyStrip ('\n' :: (renderL v ++ ['\n'])) = renderL v := by
  obtain ⟨c, t, heq, hc, -⟩ := renderL_head_ext v
  obtain ⟨t2, c2, heq2, hc2, -⟩ := renderL_last_ext v
  unfold pyStrip
  have h1 : List.dropWhile isPyWs ('\n' :: (renderL v ++ ['\n'])) = renderL v ++ ['\n'] := by
    rw [List.dropWhile_cons]
    simp only [show isPyWs '\n' = true by decide, if_true]
    rw [heq, List.cons_append, List.dropWhile_cons]
    simp [hc]
  rw [h1]
  have h2 : (renderL v ++ ['\n']).reverse = '\n' :: (renderL v).reverse := by
    simp
  rw [h2, List.dropWhile_cons]
  simp only [show isPyWs '\n' = true by decide, if_true]
  have h3 : (renderL v).reverse = c2 :: t2.reverse := by
    rw [heq2]
    simp
  rw [h3, List.dropWhile_cons]
  simp only [hc2, Bool.false_eq_true, if_false]
  rw [← h3]
  simp

theorem braceSpan_exact (copen cclose : Char) (A mtail mpre B : List Char) (mid : List Char)
    (hA : ∀ x ∈ A, x ≠ copen) (hB : ∀ x ∈ B, x ≠ cclose)
    (hhead : mid = copen :: mtail) (hlast : mid = mpre ++ [cclose]) :
    braceSpan copen cclose (A ++ (mid ++ B)) = some mid := by
  unfold braceSpan
  have h1 : List.dropWhile (fun c => !decide (c = copen)) (A ++ (mid ++ B)) = mid ++ B := by
    rw [dropWhile_append_all A _ (fun x hx => by simp [hA x hx])]
    rw [hhead, List.cons_append, List.dropWhile_cons]
    simp
  have h2 : List.dropWhile (fun c => !decide (c = cclose)) (mid ++ B).reverse = mid.reverse := by
    rw [List.reverse_append]
    rw [dropWhile_append_all B.reverse _ (fun x hx => by
      simp [hB x (by simpa using hx)])]
    rw [hlast, List.reverse_append]
    simp only [List.reverse_cons, List.reverse_nil, List.nil_append, List.singleton_append,
      List.dropWhile_cons]
    simp
  rw [h1, h2]
  have hne : mid.reverse.isEmpty = false := by
    rw [hhead]
    simp
  rw [hne]
  simp [List.reverse_reverse]

theorem braceSpan_none (copen cclose : Char) (cs : List Char) (h : ∀ x ∈ cs, x ≠ copen) :
    braceSpan copen cclose cs = none := by
  unfold braceSpan
  have h1 : List.dropWhile (fun c => !decide (c = copen)) cs = [] := by
    have h2 := dropWhile_append_all (p := fun c => !decide (c = copen)) cs []
      (fun x hx => by simp [h x hx])
    simpa using h2
  rw [h1]
  simp

theorem pv_n_fail (f : Nat) (X : List Char) : pv (f + 1) ('n' :: 'o' :: X) = none := by
  simp +decide [pv, List.take_succ_cons]

theorem loadsL_noise (X : List Char) : loadsL ('n' :: 'o' :: X) = none := by
  unfold loadsL
  have hskip : skipWs ('n' :: 'o' :: X) = 'n' :: 'o' :: X := skipWs_cons_not _ (by decide)
  simp only [hskip]
  have h2 : 2 * ('n' :: 'o' :: X).length + 2 = (2 * ('n' :: 'o' :: X).length + 1) + 1 := by
    omega
  rw [h2, pv_n_fail]

/-- Stage 1 of the extractor as one function: fenced content, stripped and
parsed. -/
def fencedParse (cs : List Char) : Option Json :=
  match fencedContent cs with
  | some content => loadsL (pyStrip content)
  | none => none

theorem extract_of_fencedParse {t : String} {v : Json}
    (h : fencedParse t.data = some v) : extract_json_from_text t = some v := by
  unfold extract_json_from_text
  unfold fencedParse at h
  cases hfc : fencedContent t.data with
  | none =>
    rw [hfc] at h
    exact absurd h (by simp)
  | some content =>
    rw [hfc] at h
    dsimp only at h
    have hne : ¬ t.data = [] := by
      intro h0
      rw [h0] at hfc
      simp [fencedContent, findTick] at hfc
    rw [if_neg hne]
    dsimp only
    rw [h]

theorem extract_of_noFence {t : String} (hne : ¬ t.data = [])
    (h : fencedParse t.data = none) : extract_json_from_text t = extractTail t.data := by
  unfold extract_json_from_text
  unfold fencedParse at h
  rw [if_neg hne]
  cases hfc : fencedContent t.data with
  | none => rfl
  | some content =>
    rw [hfc] at h
    dsimp only at h
    dsimp only
    rw [h]

theorem extractTail_loads {cs : List Char} {v : Json} (h : loadsL cs = some v) :
    extractTail cs = some v := by
  unfold extractTail
  rw [h]

theorem extractTail_objSpan {cs sp : List Char} {o : Json} (h1 : loadsL cs = none)
    (h2 : braceSpan '{' '}' cs = some sp) (h3 : loadsL sp = some o) :
    extractTail cs = some o := by
  unfold extractTail
  rw [h1, h2]
  dsimp only
  rw [h3]

theorem extractTail_arrSpan_noObj {cs : List Char} (h1 : loadsL cs = none)
    (h2 : braceSpan '{' '}' cs = none) :
    extractTail cs =
      (match braceSpan '[' ']' cs with
       | some sp2 => loadsL sp2
       | none => none) := by
  unfold extractTail
  rw [h1, h2]

theorem fencedParse_fence (v : Json) (hfence : hasTriple (renderL v) = false) :
    fencedParse (("```json\n" ++ render v ++ "\n```").data) = some v := by
  have hdata : ("```json\n" ++ render v ++ "\n```").data =
      '`' :: '`' :: '`' ::
        ('j' :: 's' :: 'o' :: 'n' :: '\n' :: (renderL v ++ ['\n', '`', '`', '`'])) := by
    simp only [String.data_append]
    show ['`', '`', '`', 'j', 's', 'o', 'n', '\n'] ++ ((renderL v) ++ ['\n', '`', '`', '`']) = _
    simp
  have hxs : hasTriple ('\n' :: (renderL v ++ ['\n'])) = false := by
    rw [hasTriple_cons_not _ (by decide)]
    exact hasTriple_append (renderL v) ['\n'] hfence (hasTriple_short _ (by simp)) (by decide)
  have hlastx : ('\n' :: (renderL v ++ ['\n'])).getLast? ≠ some '`' := by
    have hsh : ('\n' :: (renderL v ++ ['\n'])) = ('\n' :: renderL v) ++ ['\n'] := by simp
    rw [hsh, List.getLast?_concat]
    decide
  have htake : List.take 4 ('j' :: 's' :: 'o' :: 'n' :: '\n' :: (renderL v ++ ['\n', '`', '`', '`'])) =
      ['j', 's', 'o', 'n'] := rfl
  have hdrop : List.drop 4 ('j' :: 's' :: 'o' :: 'n' :: '\n' :: (renderL v ++ ['\n', '`', '`', '`'])) =
      ('\n' :: (renderL v ++ ['\n'])) ++ ('`' :: '`' :: '`' :: ([] : List Char)) := by simp
  unfold fencedParse fencedContent
  rw [hdata, findTick_fence]
  dsimp only
  rw [if_pos htake, hdrop]
  rw [takeTick_exact _ [] hxs hlastx]
  dsimp only
  rw [pyStrip_newline_wrap v]
  exact loadsL_renderL v

theorem fencedParse_none_of_noTriple {cs : List Char} (h : hasTriple cs = false) :
    fencedParse cs = none := by
  unfold fencedParse fencedContent
  rw [findTick_none cs h]

theorem noise_data (v : Json) : ("noise " ++ render v ++ " noise").data =
    ['n', 'o', 'i', 's', 'e', ' '] ++ (renderL v ++ [' ', 'n', 'o', 'i', 's', 'e']) := by
  simp only [String.data_append]
  show ['n', 'o', 'i', 's', 'e', ' '] ++ ((renderL v) ++ [' ', 'n', 'o', 'i', 's', 'e']) = _
  simp

theorem noise_hasTriple (v : Json) (hfence : hasTriple (renderL v) = false) :
    hasTriple (("noise " ++ render v ++ " noise").data) = false := by
  rw [noise_data]
  obtain ⟨c, t, heq, -, htick⟩ := renderL_head_ext v
  apply hasTriple_append
  · decide
  · exact hasTriple_append (renderL v) _ hfence (by decide) (by decide)
  · rw [heq]
    simp [htick]

theorem noise_loadsL (v : Json) : loadsL (("noise " ++ render v ++ " noise").data) = none := by
  rw [noise_data]
  show loadsL ('n' :: 'o' :: ('i' :: 's' :: 'e' :: ' ' :: (renderL v ++ [' ', 'n', 'o', 'i', 's', 'e']))) = none
  exact loadsL_noise _

theorem noise_ne_nil (v : Json) : ¬ ("noise " ++ render v ++ " noise").data = [] := by
  rw [noise_data]
  simp

/-- C1 (amended): for every JSON value whose rendering contains no triple-backtick
run, extraction round-trips for the fenced wrapping and for the bare text; for the
noise wrapping `"noise " ++ json(V) ++ " noise"` it round-trips when `V` is an
object, and when `V` is an array containing no `\x7b` character in its rendering.
(The unamended claim fails: the object stage can steal an embedded object out of a
noise-wrapped array, see the counterexample.) -/
theorem extract_render_roundtrip (v : Json) (hfence : hasTriple (renderL v) = false) :
    extract_json_from_text ("```json\n" ++ render v ++ "\n```") = some v ∧
    extract_json_from_text (render v) = some v ∧
    (∀ fs, v = Json.obj fs →
      extract_json_from_text ("noise " ++ render v ++ " noise") = some v) ∧
    (∀ l, v = Json.arr l → '{' ∉ renderL v →
      extract_json_from_text ("noise " ++ render v ++ " noise") = some v) := by
  refine ⟨?_, ?_, ?_, ?_⟩
  · exact extract_of_fencedParse (fencedParse_fence v hfence)
  · have h1 : fencedParse (render v).data = none := fencedParse_none_of_noTriple hfence
    have hne : ¬ (render v).data = [] := by
      obtain ⟨c, t, heq, -, -⟩ := renderL_head_ext v
      show ¬ renderL v = []
      simp [heq]
    rw [extract_of_noFence hne h1]
    exact extractTail_loads (loadsL_renderL v)
  · rintro fs rfl
    have h1 : fencedParse ("noise " ++ render (Json.obj fs) ++ " noise").data = none :=
      fencedParse_none_of_noTriple (noise_hasTriple _ hfence)
    rw [extract_of_noFence (noise_ne_nil _) h1]
    have hspan : braceSpan '{' '}' (("noise " ++ render (Json.obj fs) ++ " noise").data) =
        some (renderL (Json.obj fs)) := by
      rw [noise_data]
      exact braceSpan_exact '{' '}' _ (renderFieldsL fs ++ ['}']) ('{' :: renderFieldsL fs) _ _
        (by decide) (by decide) (by simp [renderL]) (by simp [renderL])
    exact extractTail_objSpan (noise_loadsL _) hspan (loadsL_renderL _)
  · rintro l rfl hnb
    have h1 : fencedParse ("noise " ++ render (Json.arr l) ++ " noise").data = none :=
      fencedParse_none_of_noTriple (noise_hasTriple _ hfence)
    rw [extract_of_noFence (noise_ne_nil _) h1]
    have hobj : braceSpan '{' '}' (("noise " ++ render (Json.arr l) ++ " noise").data) = none := by
      apply braceSpan_none
      intro x hx
      rw [noise_data] at hx
      simp only [List.mem_append] at hx
      rcases hx with hx | hx | hx
      · intro hxe
        subst hxe
        exact absurd hx (by decide)
      · intro hxe
        rw [hxe] at hx
        exact hnb hx
      · intro hxe
        subst hxe
        exact absurd hx (by decide)
    rw [extractTail_arrSpan_noObj (noise_loadsL _) hobj]
    have hspan : braceSpan '[' ']' (("noise " ++ render (Json.arr l) ++ " noise").data) =
        some (renderL (Json.arr l)) := by
      rw [noise_data]
      exact braceSpan_exact '[' ']' _ (renderElems l ++ [']']) ('[' :: renderElems l) _ _
        (by decide) (by decide) (by simp [renderL]) (by simp [renderL])
    rw [hspan]
    exact loadsL_renderL _

/-- C1 (counterexample): the noise-wrapped rendering of the array
`[\x7b"a": 1\x7d]` does not extract back to the array; the object pattern
(stage 3) steals the embedded object, so extraction returns `\x7b"a": 1\x7d`. -/
theorem extract_render_counterexample :
    extract_json_from_text
        ("noise " ++ render (Json.arr [Json.obj [("a", Json.num 1)]]) ++ " noise") ≠
      some (Json.arr [Json.obj [("a", Json.num 1)]]) ∧
    extract_json_from_text
        ("noise " ++ render (Json.arr [Json.obj [("a", Json.num 1)]]) ++ " noise") =
      some (Json.obj [("a", Json.num 1)]) := by
  decide

/-- C1 witness: the amended round-trip theorem applied at the concrete object
`\x7b"a": 1\x7d`, whose rendering visibly has no triple-backtick run. -/
theorem extract_render_roundtrip_witness :
    hasTriple (renderL (Json.obj [("a", Json.num 1)])) = false ∧
    extract_json_from_text ("```json\n" ++ render (Json.obj [("a", Json.num 1)]) ++ "\n```") =
      some (Json.obj [("a", Json.num 1)]) :=
  ⟨by decide, (extract_render_roundtrip (Json.obj [("a", Json.num 1)]) (by decide)).1⟩

/-- Stage 3 of `extract_json_from_text`: the greedy object span, parsed. -/
def objStage (cs : List Char) : Option Json :=
  match braceSpan '{' '}' cs with
  | some sp => loadsL sp
  | none => none

/-- Stage 4 of `extract_json_from_text`: the greedy array span, parsed. -/
def arrStage (cs : List Char) : Option Json :=
  match braceSpan '[' ']' cs with
  | some sp2 => loadsL sp2
  | none => none

theorem extractTail_arrSpan_objFail {cs sp : List Char} (h1 : loadsL cs = none)
    (h2 : braceSpan '{' '}' cs = some sp) (h3 : loadsL sp = none) :
    extractTail cs =
      (match braceSpan '[' ']' cs with
       | some sp2 => loadsL sp2
       | none => none) := by
  unfold extractTail
  rw [h1, h2]
  dsimp only
  rw [h3]

/-- C5: `extract_json_from_text` tries the four stages in order and returns the
first success: (1) fenced-block content (`fencedParse`), (2) the whole text
(`loadsL`), (3) the object span (`objStage`), (4) the array span (`arrStage`);
and when stages 1 and 2 fail and both a parsable object span and an array span
exist, the object span value is returned in preference to the array. -/
theorem extract_stage_order (t : String) (ht : ¬ t.data = []) :
    (∀ v, fencedParse t.data = some v → extract_json_from_text t = some v) ∧
    (∀ v, fencedParse t.data = none → loadsL t.data = some v →
      extract_json_from_text t = some v) ∧
    (∀ v, fencedParse t.data = none → loadsL t.data = none →
      objStage t.data = some v → extract_json_from_text t = some v) ∧
    (∀ v, fencedParse t.data = none → loadsL t.data = none →
      objStage t.data = none → arrStage t.data = some v →
      extract_json_from_text t = some v) ∧
    (∀ sp sp2 o, fencedParse t.data = none → loadsL t.data = none →
      braceSpan '{' '}' t.data = some sp → loadsL sp = some o →
      braceSpan '[' ']' t.data = some sp2 →
      extract_json_from_text t = some o) := by
  refine ⟨?_, ?_, ?_, ?_, ?_⟩
  · intro v h1
    exact extract_of_fencedParse h1
  · intro v h1 h2
    rw [extract_of_noFence ht h1]
    exact extractTail_loads h2
  · intro v h1 h2 h3
    rw [extract_of_noFence ht h1]
    unfold objStage at h3
    cases hb : braceSpan '{' '}' t.data with
    | none =>
      rw [hb] at h3
      exact absurd h3 (by simp)
    | some sp =>
      rw [hb] at h3
      exact extractTail_objSpan h2 hb h3
  · intro v h1 h2 h3 h4
    rw [extract_of_noFence ht h1]
    unfold objStage at h3
    unfold arrStage at h4
    cases hb : braceSpan '{' '}' t.data with
    | none =>
      rw [extractTail_arrSpan_noObj h2 hb]
      exact h4
    | some sp =>
      rw [hb] at h3
      dsimp only at h3
      rw [extractTail_arrSpan_objFail h2 hb h3]
      exact h4
  · intro sp sp2 o h1 h2 h3 h4 h5
    rw [extract_of_noFence ht h1]
    exact extractTail_objSpan h2 h3 h4

/-- C5 witness: on a text whose stages 1 and 2 fail and which contains both a
parsable object span and a parsable array span, the object is returned. -/
theorem extract_stage_order_witness :
    ¬ ("no [\"a\"] \x7b\"b\": 2\x7d end" : String).data = [] ∧
    extract_json_from_text "no [\"a\"] \x7b\"b\": 2\x7d end" =
      some (Json.obj [("b", Json.num 2)]) :=
  ⟨by decide,
    (extract_stage_order "no [\"a\"] \x7b\"b\": 2\x7d end" (by decide)).2.2.2.2
      ("\x7b\"b\": 2\x7d" : String).data ("[\"a\"]" : String).data
      (Json.obj [("b", Json.num 2)])
      (by decide) (by decide) (by decide) (by decide) (by decide)⟩

/-- C7: `extract_json_from_text` is a total function (the model never raises);
on `"not json at all"` it returns `none`, and on any text on which all four
stages fail it returns `none`. -/
theorem extract_total_none (t : String) :
    extract_json_from_text "not json at all" = none ∧
    (fencedParse t.data = none → loadsL t.data = none →
      objStage t.data = none → arrStage t.data = none →
      extract_json_from_text t = none) := by
  refine ⟨by decide, ?_⟩
  intro h1 h2 h3 h4
  by_cases hnil : t.data = []
  · unfold extract_json_from_text
    rw [if_pos hnil]
  · rw [extract_of_noFence hnil h1]
    unfold objStage at h3
    unfold arrStage at h4
    cases hb : braceSpan '{' '}' t.data with
    | none =>
      rw [extractTail_arrSpan_noObj h2 hb]
      exact h4
    | some sp =>
      rw [hb] at h3
      dsimp only at h3
      rw [extractTail_arrSpan_objFail h2 hb h3]
      exact h4

/-- C7 witness: all four stages fail on `"not json at all"`, and extraction
returns `none` there. -/
theorem extract_total_none_witness :
    fencedParse ("not json at all" : String).data = none ∧
    extract_json_from_text "not json at all" = none :=
  ⟨by decide,
    (extract_total_none "not json at all").2 (by decide) (by decide) (by decide) (by decide)⟩

/-! ### Python value semantics used by `MaterialOrganizerAgent`
(src/agents/ideagen/material_organizer_agent.py): `str()` / `repr()` of a
JSON-decoded value, `in`, `[...]`, `.get`, iteration, and the exceptions the
corresponding operations raise on the wrong type. -/

inductive PyErr where
  | jsonDecodeError
  | attributeError
  | typeError
  | keyError
  | llmError
  | valueError
  | fileNotFoundError
deriving Repr, DecidableEq

/-- Python dict lookup for an association list as produced by `json.loads`:
a repeated key keeps the last value. -/
def lookupLast (fs : List (String × Json)) (k : String) : Option Json :=
  match fs with
  | [] => none
  | (k1, v1) :: rest =>
    match lookupLast rest k with
    | some v => some v
    | none => if k1 = k then some v1 else none

def startsWithL : List Char → List Char → Bool
  | [], _ => true
  | _ :: _, [] => false
  | a :: as_, b :: bs => a == b && startsWithL as_ bs

/-- Python substring test `needle in hay` for strings. -/
def containsSub (needle : List Char) : List Char → Bool
  | [] => needle.isEmpty
  | c :: rest => startsWithL needle (c :: rest) || containsSub needle rest

/-- Python `repr` escaping for one character inside a quoted string. -/
def pyEscChar (q : Char) (c : Char) : List Char :=
  if c = '\\' then ['\\', '\\']
  else if c = q then ['\\', q]
  else if c = '\n' then ['\\', 'n']
  else if c = '\r' then ['\\', 'r']
  else if c = '\t' then ['\\', 't']
  else if c.toNat < 32 ∨ c.toNat = 127 then
    ['\\', 'x', hexDigitChar (c.toNat / 16), hexDigitChar (c.toNat % 16)]
  else [c]

/-- Python `repr` of a string: single quotes, or double quotes when the string
contains a single quote but no double quote. -/
def pyQuoteL (s : List Char) : List Char :=
  if s.contains (Char.ofNat 39) ∧ ¬ s.contains '"' then
    '"' :: ((s.map (pyEscChar '"')).flatten ++ ['"'])
  else
    Char.ofNat 39 :: ((s.map (pyEscChar (Char.ofNat 39))).flatten ++ [Char.ofNat 39])

mutual
/-- Python `str()` of a JSON-decoded value. -/
def pyStrL : Json → List Char
  | .null => "None".data
  | .bool b => if b then "True".data else "False".data
  | .num n => renderInt n
  | .str s => s.data
  | .arr l => '[' :: (pyReprElems l ++ [']'])
  | .obj fs => '{' :: (pyReprFields fs ++ ['}'])
/-- Python `repr()` of a JSON-decoded value (used inside containers). -/
def pyReprL : Json → List Char
  | .null => "None".data
  | .bool b => if b then "True".data else "False".data
  | .num n => renderInt n
  | .str s => pyQuoteL s.data
  | .arr l => '[' :: (pyReprElems l ++ [']'])
  | .obj fs => '{' :: (pyReprFields fs ++ ['}'])
def pyReprElems : List Json → List Char
  | [] => []
  | [e] => pyReprL e
  | e :: rest => pyReprL e ++ (',' :: ' ' :: pyReprElems rest)
def pyReprFields : List (String × Json) → List Char
  | [] => []
  | [(k, v)] => pyQuoteL k.data ++ (':' :: ' ' :: pyReprL v)
  | (k, v) :: rest => pyQuoteL k.data ++ (':' :: ' ' :: (pyReprL v ++ (',' :: ' ' :: pyReprFields rest)))
end

def pyStr (v : Json) : String := String.mk (pyStrL v)

/-- Python `key in point`: key test for a dict, substring test for a string,
membership for a list; `TypeError` for the non-iterable scalars. -/
def pyIn (key : String) : Json → Except PyErr Bool
  | .obj fs => .ok (fs.any (fun q => q.1 == key))
  | .str s => .ok (containsSub key.data s.data)
  | .arr l => .ok (l.any (fun e => jbeq e (Json.str key)))
  | _ => .error .typeError

/-- Python `point[key]`: dict lookup (`KeyError` when absent), `TypeError`
for a string or list indexed by a string, or a scalar. -/
def pyGetItem (v : Json) (key : String) : Except PyErr Json :=
  match v with
  | .obj fs =>
    match lookupLast fs key with
    | some w => .ok w
    | none => .error .keyError
  | _ => .error .typeError

/-- Python `result.get(key, default)`: only a dict has `.get`
(`AttributeError` otherwise). -/
def pyGet (v : Json) (key : String) (dflt : Json) : Except PyErr Json :=
  match v with
  | .obj fs =>
    match lookupLast fs key with
    | some w => .ok w
    | none => .ok dflt
  | _ => .error .attributeError

def dedupAux : List String → List String → List String
  | [], _ => []
  | k :: rest, seen =>
    if seen.contains k then dedupAux rest seen else k :: dedupAux rest (k :: seen)

/-- Python `for point in x`: a list yields its elements, a string its
characters, a dict its keys (first occurrence order); scalars raise
`TypeError`. -/
def pyIter : Json → Except PyErr (List Json)
  | .arr l => .ok l
  | .str s => .ok (s.data.map (fun c => Json.str (String.mk [c])))
  | .obj fs => .ok ((dedupAux (fs.map (fun q => q.1)) []).map Json.str)
  | _ => .error .typeError

example : pyStr (Json.obj [("a", Json.str "x")]) = "\x7b\x27a\x27: \x27x\x27\x7d" := by decide
example : pyIn "kp" (Json.str "a kp b") = .ok true := by rfl
example : pyGet (Json.arr [Json.num 1]) "k" (Json.arr []) = .error .attributeError := by rfl

/-! ### `MaterialOrganizerAgent.process` and `_fallback_extract`
(src/agents/ideagen/material_organizer_agent.py). The LLM responses are
inputs: the primary response as a string, the fallback call as an
`Except PyErr String` (the fallback `call_llm` may itself raise). -/

/-- One iteration of the validation loop: membership guards, `str(...).strip()`
on both fields, then the truthiness checks; `strict` adds the
`len(desc) >= 10` floor of `process` (absent in `_fallback_extract`). -/
def validatePoint (strict : Bool) (point : Json) : Except PyErr (Option (String × String)) :=
  match pyIn "knowledge_point" point with
  | .error e => .error e
  | .ok false => .ok none
  | .ok true =>
    match pyIn "description" point with
    | .error e => .error e
    | .ok false => .ok none
    | .ok true =>
      match pyGetItem point "knowledge_point" with
      | .error e => .error e
      | .ok kpj =>
        match pyGetItem point "description" with
        | .error e => .error e
        | .ok dj =>
          let kp := String.mk (pyStrip (pyStrL kpj))
          let d := String.mk (pyStrip (pyStrL dj))
          if ¬ kp = "" ∧ ¬ d = "" ∧ (strict = true → 10 ≤ d.length) then
            .ok (some (kp, d))
          else .ok none

def validatePoints (strict : Bool) : List Json → Except PyErr (List (String × String))
  | [] => .ok []
  | p :: rest =>
    match validatePoint strict p with
    | .error e => .error e
    | .ok none => validatePoints strict rest
    | .ok (some pr) =>
      match validatePoints strict rest with
      | .error e => .error e
      | .ok l => .ok (pr :: l)

/-- `result.get("knowledge_points", [])` followed by the `for` iteration. -/
def pyPoints (result : Json) : Except PyErr (List Json) :=
  match pyGet result "knowledge_points" (Json.arr []) with
  | .error e => .error e
  | .ok kps => pyIter kps

def natStr (n : Nat) : String := String.mk (renderNat n)

/-- The synthetic payload `_fallback_extract` returns when its own validation
yields nothing. -/
def synthetic1 (n : Nat) : List (String × String) :=
  [("Comprehensive Knowledge Point",
    "Comprehensive knowledge content based on " ++ natStr n ++
      " records, containing multiple research directions and concepts.")]

/-- The synthetic payload `_fallback_extract` returns when anything in its
`try` block raises. -/
def synthetic2 (n : Nat) : List (String × String) :=
  [("Comprehensive Research Topic",
    "Based on the selected " ++ natStr n ++
      " notebook records, multiple research directions and knowledge points can be explored.")]

/-- The body of `_fallback_extract`'s `try` block. -/
def fallbackTry (records : List Json) (fb : Except PyErr String) :
    Except PyErr (List (String × String)) :=
  match fb with
  | .error e => .error e
  | .ok response =>
    match json_loads response with
    | none => .error .jsonDecodeError
    | some result =>
      match pyPoints result with
      | .error e => .error e
      | .ok pts =>
        match validatePoints false pts with
        | .error e => .error e
        | .ok validated =>
          if validated = [] then .ok (synthetic1 records.length) else .ok validated

/-- `MaterialOrganizerAgent._fallback_extract`: the whole `try` body under
`except Exception`, which degrades any failure to the second synthetic
payload. Never raises. -/
def fallback_extract (records : List Json) (fb : Except PyErr String) :
    List (String × String) :=
  match fallbackTry records fb with
  | .ok l => l
  | .error _ => synthetic2 records.length

/-- `MaterialOrganizerAgent.process` after the primary `call_llm` returned
`response`: only `json.JSONDecodeError` (the `none` branch of `json.loads`)
is caught; every other exception of the `try` block propagates. -/
def process (records : List Json) (response : String) (fb : Except PyErr String) :
    Except PyErr (List (String × String)) :=
  match json_loads response with
  | none => .ok (fallback_extract records fb)
  | some result =>
    match pyPoints result with
    | .error e => .error e
    | .ok pts =>
      match validatePoints true pts with
      | .error e => .error e
      | .ok validated =>
        if validated = [] ∧ ¬ records = [] then .ok (fallback_extract records fb)
        else .ok validated

example : process [Json.obj []] "[1]" (.ok "") = .error .attributeError := by rfl
example : process [] "not json" (.error .llmError) =
    .ok (synthetic2 0) := by rfl
example : process [Json.obj []]
    "\x7b\"knowledge_points\": [\x7b\"knowledge_point\": \"K\", \"description\": \"0123456789\"\x7d]\x7d"
    (.error .llmError) = .ok [("K", "0123456789")] := by rfl

theorem lookupLast_some_of_any (fs : List (String × Json)) (k : String)
    (h : fs.any (fun q => q.1 == k) = true) : ∃ v, lookupLast fs k = some v := by
  induction fs with
  | nil => simp at h
  | cons hd tl ih =>
    obtain ⟨k1, v1⟩ := hd
    unfold lookupLast
    cases hr : lookupLast tl k with
    | some v => exact ⟨v, rfl⟩
    | none =>
      simp only [List.any_cons, Bool.or_eq_true, beq_iff_eq] at h
      rcases h with h | h
      · exact ⟨v1, by simp [h]⟩
      · obtain ⟨v, hv⟩ := ih h
        rw [hv] at hr
        cases hr

theorem validatePoint_obj_ok (strict : Bool) (gs : List (String × Json)) :
    ∃ r, validatePoint strict (Json.obj gs) = .ok r := by
  unfold validatePoint
  cases h1 : pyIn "knowledge_point" (Json.obj gs) with
  | error e => exact absurd h1 (by unfold pyIn; simp)
  | ok b1 =>
    cases b1 with
    | false => exact ⟨none, rfl⟩
    | true =>
      cases h2 : pyIn "description" (Json.obj gs) with
      | error e => exact absurd h2 (by unfold pyIn; simp)
      | ok b2 =>
        cases b2 with
        | false => exact ⟨none, rfl⟩
        | true =>
          have hk : gs.any (fun q => q.1 == "knowledge_point") = true := by
            unfold pyIn at h1
            exact Except.ok.inj h1
          have hd : gs.any (fun q => q.1 == "description") = true := by
            unfold pyIn at h2
            exact Except.ok.inj h2
          obtain ⟨vk, hvk⟩ := lookupLast_some_of_any gs "knowledge_point" hk
          obtain ⟨vd, hvd⟩ := lookupLast_some_of_any gs "description" hd
          have hg1 : pyGetItem (Json.obj gs) "knowledge_point" = .ok vk := by
            unfold pyGetItem
            dsimp only
            rw [hvk]
          have hg2 : pyGetItem (Json.obj gs) "description" = .ok vd := by
            unfold pyGetItem
            dsimp only
            rw [hvd]
          rw [hg1, hg2]
          dsimp only
          split
          · exact ⟨_, rfl⟩
          · exact ⟨none, rfl⟩

theorem validatePoints_obj_ok (strict : Bool) (pts : List Json)
    (h : ∀ p ∈ pts, ∃ gs, p = Json.obj gs) :
    ∃ l, validatePoints strict pts = .ok l := by
  induction pts with
  | nil => exact ⟨[], rfl⟩
  | cons p rest ih =>
    obtain ⟨gs, hgs⟩ := h p (by simp)
    obtain ⟨r, hr⟩ := validatePoint_obj_ok strict gs
    obtain ⟨l, hl⟩ := ih (fun q hq => h q (by simp [hq]))
    subst hgs
    unfold validatePoints
    rw [hr]
    cases r with
    | none => exact ⟨l, hl⟩
    | some pr =>
      rw [hl]
      exact ⟨pr :: l, rfl⟩

theorem validatePoint_some_shape {strict : Bool} {p : Json} {pr : String × String}
    (h : validatePoint strict p = .ok (some pr)) :
    ¬ pr.1 = "" ∧ ¬ pr.2 = "" ∧ (strict = true → 10 ≤ pr.2.length) := by
  unfold validatePoint at h
  repeat' split at h
  all_goals try (cases h)
  dsimp only at h
  split at h
  · rename_i hcond
    injection h with h2
    injection h2 with h3
    subst h3
    exact hcond
  · cases h

theorem validatePoints_mem {strict : Bool} {pts : List Json} {l : List (String × String)}
    (h : validatePoints strict pts = .ok l) :
    ∀ pr ∈ l, ¬ pr.1 = "" ∧ ¬ pr.2 = "" ∧ (strict = true → 10 ≤ pr.2.length) := by
  induction pts generalizing l with
  | nil =>
    simp only [validatePoints] at h
    injection h with h1
    subst h1
    intro pr hpr
    cases hpr
  | cons p rest ih =>
    unfold validatePoints at h
    split at h
    · cases h
    · exact ih h
    · rename_i pr0 hv0
      split at h
      · cases h
      · rename_i l0 hl0
        injection h with h1
        subst h1
        intro pr hpr
        cases hpr with
        | head => exact validatePoint_some_shape hv0
        | tail _ htl => exact ih hl0 pr htl

theorem synthetic1_ne_nil (n : Nat) : ¬ synthetic1 n = [] := by
  unfold synthetic1
  simp

theorem synthetic2_ne_nil (n : Nat) : ¬ synthetic2 n = [] := by
  unfold synthetic2
  simp

theorem fallbackTry_ok_ne_nil {records : List Json} {fb : Except PyErr String}
    {l : List (String × String)} (h : fallbackTry records fb = .ok l) : ¬ l = [] := by
  unfold fallbackTry at h
  repeat' split at h
  all_goals cases h
  · exact synthetic1_ne_nil _
  · assumption

theorem fallback_extract_ne_nil (records : List Json) (fb : Except PyErr String) :
    ¬ fallback_extract records fb = [] := by
  unfold fallback_extract
  cases hf : fallbackTry records fb with
  | ok l => exact fallbackTry_ok_ne_nil hf
  | error e => exact synthetic2_ne_nil _

theorem string_append_ne_empty (a b : String) (h : ¬ a = "") : ¬ a ++ b = "" := by
  intro he
  apply h
  cases a with
  | mk da =>
    cases b with
    | mk db =>
      have : da ++ db = [] := congrArg String.data he
      have hda : da = [] := List.append_eq_nil.mp this |>.1
      rw [hda]

theorem synthetic1_mem (n : Nat) :
    ∀ pr ∈ synthetic1 n, ¬ pr.1 = "" ∧ ¬ pr.2 = "" := by
  intro pr hpr
  unfold synthetic1 at hpr
  rw [List.mem_singleton] at hpr
  subst hpr
  refine ⟨?_, ?_⟩
  · show ¬ "Comprehensive Knowledge Point" = ""
    decide
  · exact string_append_ne_empty _ _ (string_append_ne_empty _ _ (by decide))

theorem synthetic2_mem (n : Nat) :
    ∀ pr ∈ synthetic2 n, ¬ pr.1 = "" ∧ ¬ pr.2 = "" := by
  intro pr hpr
  unfold synthetic2 at hpr
  rw [List.mem_singleton] at hpr
  subst hpr
  refine ⟨?_, ?_⟩
  · show ¬ "Comprehensive Research Topic" = ""
    decide
  · exact string_append_ne_empty _ _ (string_append_ne_empty _ _ (by decide))

theorem fallbackTry_mem {records : List Json} {fb : Except PyErr String}
    {l : List (String × String)} (h : fallbackTry records fb = .ok l) :
    ∀ pr ∈ l, ¬ pr.1 = "" ∧ ¬ pr.2 = "" := by
  unfold fallbackTry at h
  repeat' split at h
  all_goals cases h
  · exact synthetic1_mem _
  · rename_i hval hne
    intro pr hpr
    have := validatePoints_mem hval pr hpr
    exact ⟨this.1, this.2.1⟩

theorem fallback_extract_mem (records : List Json) (fb : Except PyErr String) :
    ∀ pr ∈ fallback_extract records fb, ¬ pr.1 = "" ∧ ¬ pr.2 = "" := by
  unfold fallback_extract
  cases hf : fallbackTry records fb with
  | ok l => exact fallbackTry_mem hf
  | error e => exact synthetic2_mem _

/-- C2 (amended): with a non-empty record list, `process` degrades rather than
raises in the cases the code actually covers: a primary response that fails
JSON decoding goes to `_fallback_extract`, whose result is always a non-empty
list (it never raises, degrading to a synthetic payload); and a primary parse
whose `knowledge_points` member iterates to dict-shaped points always
produces a non-empty `.ok` result. (The unamended claim fails: a primary
response that parses to a non-dict, e.g. `"[1]"`, raises `AttributeError`
through `result.get`, which the `except json.JSONDecodeError` clause does not
catch; see the counterexample.) -/
theorem process_absorbs (records : List Json) (response : String)
    (fb : Except PyErr String) (hrec : ¬ records = []) :
    ¬ fallback_extract records fb = [] ∧
    (json_loads response = none →
      process records response fb = .ok (fallback_extract records fb)) ∧
    (∀ result pts, json_loads response = some result → pyPoints result = .ok pts →
      (∀ p ∈ pts, ∃ gs, p = Json.obj gs) →
      ∃ l, process records response fb = .ok l ∧ ¬ l = []) := by
  refine ⟨fallback_extract_ne_nil records fb, ?_, ?_⟩
  · intro h
    unfold process
    rw [h]
  · intro result pts h1 h2 hobj
    obtain ⟨vl, hvl⟩ := validatePoints_obj_ok true pts hobj
    unfold process
    rw [h1]
    dsimp only
    rw [h2]
    dsimp only
    rw [hvl]
    dsimp only
    by_cases hv : vl = []
    · rw [if_pos ⟨hv, hrec⟩]
      exact ⟨_, rfl, fallback_extract_ne_nil records fb⟩
    · rw [if_neg (fun hc => hv hc.1)]
      exact ⟨vl, rfl, hv⟩

/-- C2 (counterexample): a primary response that is valid JSON but not an
object, here `"[1]"`, makes `result.get("knowledge_points", [])` raise
`AttributeError`, which escapes `process` (only `json.JSONDecodeError` is
caught), so no knowledge-point list reaches the caller. -/
theorem process_counterexample :
    process [Json.obj []] "[1]" (.ok "\x7b\x7d") = .error .attributeError := rfl

/-- C2 witness: a non-empty record list with an unparsable primary response;
the fallback result is non-empty and `process` returns it. -/
theorem process_absorbs_witness :
    ¬ [Json.obj []] = ([] : List Json) ∧
    ¬ fallback_extract [Json.obj []] (Except.error PyErr.llmError) = [] :=
  ⟨by decide,
    (process_absorbs [Json.obj []] "not json" (Except.error PyErr.llmError) (by decide)).1⟩

/-- C4 (amended): every pair in a list returned by `process` has a non-empty
knowledge point and a non-empty description, and the primary validation loop
(`validatePoints true`) additionally enforces the 10-character description
floor. (The unamended claim fails: `_fallback_extract`'s validation omits the
`len(desc) >= 10` check, so a fallback-produced description may be shorter;
see the counterexample.) -/
theorem process_element_shape (records : List Json) (response : String)
    (fb : Except PyErr String) :
    (∀ l, process records response fb = .ok l →
      ∀ pr ∈ l, ¬ pr.1 = "" ∧ ¬ pr.2 = "") ∧
    (∀ pts l, validatePoints true pts = .ok l → ∀ pr ∈ l, 10 ≤ pr.2.length) := by
  constructor
  · intro l h
    unfold process at h
    repeat' split at h
    all_goals cases h
    · exact fallback_extract_mem records fb
    · exact fallback_extract_mem records fb
    · rename_i hval hcond
      intro pr hpr
      have := validatePoints_mem hval pr hpr
      exact ⟨this.1, this.2.1⟩
  · intro pts l h pr hpr
    exact (validatePoints_mem h pr hpr).2.2 rfl

/-- C4 (counterexample): an empty primary object routes to the fallback, whose
looser validation accepts the 5-character description `"short"`; `process`
returns it even though it is below the 10-character floor. -/
theorem process_short_desc_counterexample :
    process [Json.obj []] "\x7b\x7d"
        (.ok "\x7b\"knowledge_points\": [\x7b\"knowledge_point\": \"K\", \"description\": \"short\"\x7d]\x7d")
      = .ok [("K", "short")] ∧ ("short" : String).length < 10 :=
  ⟨rfl, by decide⟩

/-- C4 witness: the element-shape theorem applied to the concrete fallback
output `[("K", "short")]`. -/
theorem process_element_shape_witness :
    ¬ ("K" : String) = "" ∧ ¬ ("short" : String) = "" :=
  (process_element_shape [Json.obj []] "\x7b\x7d"
      (.ok "\x7b\"knowledge_points\": [\x7b\"knowledge_point\": \"K\", \"description\": \"short\"\x7d]\x7d")).1
    [("K", "short")] rfl ("K", "short") (List.mem_singleton.mpr rfl)

/-! ### `PromptLoader` (src/agents/solve/utils/prompt_loader.py). The YAML
filesystem is modelled as parsed contents: `direct` holds the exact files
`<base_dir>/<language>/<agent_name>.yaml`, `nested` the first hit of
`rglob(f"\x7bagent_name\x7d.yaml")` under the language directory, `langDirs`
the language directories that exist. A file's entry is `.error ()` when
`yaml.safe_load` would fail on it. -/

instance {ε α : Type} [DecidableEq ε] [DecidableEq α] : DecidableEq (Except ε α) :=
  fun a b =>
    match a, b with
    | .ok x, .ok y => decidable_of_iff (x = y) (by simp)
    | .error x, .error y => decidable_of_iff (x = y) (by simp)
    | .ok _, .error _ => isFalse (by simp)
    | .error _, .ok _ => isFalse (by simp)

structure FS where
  direct : List ((String × String) × Except Unit Json)
  nested : List ((String × String) × Except Unit Json)
  langDirs : List String
deriving DecidableEq

structure LoaderState where
  language : String
  cache : List (String × Json)
deriving DecidableEq

def lookupStr (l : List (String × Json)) (k : String) : Option Json :=
  match l with
  | [] => none
  | (k1, v) :: rest => if k1 = k then some v else lookupStr rest k

def fsFind (l : List ((String × String) × Except Unit Json)) (k : String × String) :
    Option (Except Unit Json) :=
  match l with
  | [] => none
  | (k1, v) :: rest => if k1 = k then some v else fsFind rest k

def cacheKey (agent version language : String) : String :=
  agent ++ "_" ++ version ++ "_" ++ language

/-- The file-resolution part of `PromptLoader.load`: exact path first, else a
recursive search under the language directory, else `FileNotFoundError`
(raised both when the search finds nothing and when the language directory
does not exist). -/
def resolveFile (fs : FS) (language agent : String) : Except PyErr (Except Unit Json) :=
  match fsFind fs.direct (language, agent) with
  | some content => .ok content
  | none =>
    if fs.langDirs.contains language then
      match fsFind fs.nested (language, agent) with
      | some content => .ok content
      | none => .error .fileNotFoundError
    else .error .fileNotFoundError

/-- `yaml.safe_load` under the `try`: a parse failure becomes `ValueError`. -/
def readConfig : Except Unit Json → Except PyErr Json
  | .error _ => .error .valueError
  | .ok cfg => .ok cfg

/-- `PromptLoader._validate_config`: returns `true` for the structured shape
(`system` is a dict), `false` for the raw shape (`system` a string and
`user_template` a string); `ValueError` otherwise. -/
def validate_config (config : Json) : Except PyErr Bool :=
  match pyIn "system" config with
  | .error e => .error e
  | .ok false => .error .valueError
  | .ok true =>
    match pyGetItem config "system" with
    | .error e => .error e
    | .ok systemSection =>
      match systemSection with
      | Json.obj _ =>
        (match pyIn "user" config with
         | .error e => .error e
         | .ok false => .error .valueError
         | .ok true =>
           match pyIn "role" systemSection with
           | .error e => .error e
           | .ok false => .error .valueError
           | .ok true =>
             match pyIn "task" systemSection with
             | .error e => .error e
             | .ok false => .error .valueError
             | .ok true =>
               match pyGetItem config "user" with
               | .error e => .error e
               | .ok userConfig =>
                 match pyIn "template" userConfig with
                 | .error e => .error e
                 | .ok false => .error .valueError
                 | .ok true => .ok true)
      | Json.str _ =>
        (match pyIn "user_template" config with
         | .error e => .error e
         | .ok false => .error .valueError
         | .ok true =>
           match pyGetItem config "user_template" with
           | .error e => .error e
           | .ok ut =>
             match ut with
             | Json.str _ => .ok false
             | _ => .error .valueError)
      | _ => .error .valueError

def pyTruthy : Json → Bool
  | .null => false
  | .bool b => b
  | .num n => !(n == 0)
  | .str s => !s.data.isEmpty
  | .arr l => !l.isEmpty
  | .obj fs => !fs.isEmpty

def strOfJson : Json → Except PyErr (List Char)
  | .str s => .ok s.data
  | _ => .error .typeError

/-- Python `"\n".join`: `TypeError` on a non-string element. -/
def joinNl : List Json → Except PyErr (List Char)
  | [] => .ok []
  | [x] => strOfJson x
  | x :: rest =>
    match strOfJson x with
    | .error e => .error e
    | .ok cs =>
      match joinNl rest with
      | .error e => .error e
      | .ok rs => .ok (cs ++ '\n' :: rs)

def youAre (role : Json) : Json :=
  Json.str (String.mk ("You are ".data ++ (pyStrL role ++ ['.'])))

/-- One optional `Requirements:`/`Constraints:`/`Notes:` block of
`_build_prompts`: a blank line, the header, one `- item` line per element. -/
def optBlock (header : String) (v : Json) : Except PyErr (List Json) :=
  match pyIter v with
  | .error e => .error e
  | .ok items =>
    .ok (Json.str "" :: Json.str header ::
      items.map (fun it => Json.str (String.mk ('-' :: ' ' :: pyStrL it))))

/-- `PromptLoader._build_prompts` for the structured shape. -/
def buildStructured (config : Json) : Except PyErr Json :=
  match pyGetItem config "system" with
  | .error e => .error e
  | .ok systemConfig =>
    match pyGetItem config "user" with
    | .error e => .error e
    | .ok userConfig =>
      match pyGetItem systemConfig "role" with
      | .error e => .error e
      | .ok role =>
        match pyGetItem systemConfig "task" with
        | .error e => .error e
        | .ok task =>
          match pyGet systemConfig "requirements" Json.null with
          | .error e => .error e
          | .ok reqs =>
            match (if pyTruthy reqs then optBlock "Requirements:" reqs else .ok []) with
            | .error e => .error e
            | .ok reqParts =>
              match pyGet systemConfig "constraints" Json.null with
              | .error e => .error e
              | .ok cons_ =>
                match (if pyTruthy cons_ then optBlock "Constraints:" cons_ else .ok []) with
                | .error e => .error e
                | .ok consParts =>
                  match pyGet systemConfig "output_format" Json.null with
                  | .error e => .error e
                  | .ok ofv =>
                    match pyGet systemConfig "notes" Json.null with
                    | .error e => .error e
                    | .ok notes =>
                      match (if pyTruthy notes then optBlock "Notes:" notes else .ok []) with
                      | .error e => .error e
                      | .ok noteParts =>
                        match joinNl (youAre role :: Json.str "" :: task ::
                            (reqParts ++ consParts ++
                              (if pyTruthy ofv then
                                [Json.str "", Json.str "Output Format:", ofv] else []) ++
                              noteParts)) with
                        | .error e => .error e
                        | .ok sys =>
                          match pyGetItem userConfig "template" with
                          | .error e => .error e
                          | .ok template =>
                            .ok (Json.obj [("system", Json.str (String.mk sys)),
                                           ("user_template", template),
                                           ("output_format",
                                            if pyTruthy ofv then ofv else Json.str "")])

/-- `PromptLoader._build_prompts` for the raw shape: the `system` and
`user_template` entries, then every other key of the config. -/
def buildRaw (config : Json) : Except PyErr Json :=
  match pyGetItem config "system" with
  | .error e => .error e
  | .ok sys =>
    match pyGet config "user_template" (Json.str "") with
    | .error e => .error e
    | .ok ut =>
      match config with
      | Json.obj fs =>
        .ok (Json.obj (("system", sys) :: ("user_template", ut) ::
          fs.filter (fun q => ¬ (q.1 = "system" ∨ q.1 = "user_template"))))
      | _ => .error .attributeError

/-- `PromptLoader.load`: result, state after the call, and how many times the
file was read. -/
def load (st : LoaderState) (fs : FS) (agent version : String) :
    Except PyErr Json × LoaderState × Nat :=
  let key := cacheKey agent version st.language
  match lookupStr st.cache key with
  | some prompts => (.ok prompts, st, 0)
  | none =>
    match resolveFile fs st.language agent with
    | .error e => (.error e, st, 0)
    | .ok content =>
      match readConfig content with
      | .error e => (.error e, st, 1)
      | .ok config =>
        match validate_config config with
        | .error e => (.error e, st, 1)
        | .ok isStructured =>
          match (if isStructured then buildStructured config else buildRaw config) with
          | .error e => (.error e, st, 1)
          | .ok prompts =>
            (.ok prompts, { st with cache := (key, prompts) :: st.cache }, 1)

/-- `PromptLoader.set_language`: outside `zh`/`en` it raises before touching
any state; otherwise it sets the language and clears the whole cache. -/
def set_language (st : LoaderState) (language : String) :
    Except PyErr Unit × LoaderState :=
  if language = "zh" ∨ language = "en" then
    (.ok (), { language := language, cache := [] })
  else (.error .valueError, st)

/-- `PromptLoader.clear_cache`. -/
def clear_cache (st : LoaderState) : LoaderState := { st with cache := [] }

/-- `PromptLoader.reload`: drop the key's cache entry, then `load`. -/
def reload (st : LoaderState) (fs : FS) (agent version : String) :
    Except PyErr Json × LoaderState × Nat :=
  let key := cacheKey agent version st.language
  load { st with cache := st.cache.filter (fun q => ¬ q.1 = key) } fs agent version

/-- `BaseAgent.__init__`: `self.prompts = self.prompt_loader.load(agent_name)`
under `except FileNotFoundError` and `except Exception`, both of which set
`prompts = None` instead of propagating. -/
def baseAgentPrompts (loadResult : Except PyErr Json) : Option Json :=
  match loadResult with
  | .ok p => some p
  | .error _ => none

example : load ⟨"en", []⟩
    ⟨[(("en", "a"), .ok (Json.obj [("system", Json.str "S"), ("user_template", Json.str "U")]))],
      [], ["en"]⟩ "a" "latest" =
    (.ok (Json.obj [("system", Json.str "S"), ("user_template", Json.str "U")]),
      ⟨"en", [("a_latest_en", Json.obj [("system", Json.str "S"), ("user_template", Json.str "U")])]⟩,
      1) := by rfl

example : buildStructured (Json.obj
    [("system", Json.obj [("role", Json.str "a tutor"), ("task", Json.str "Help.")]),
     ("user", Json.obj [("template", Json.str "T")])]) =
    .ok (Json.obj [("system", Json.str "You are a tutor.\n\nHelp."),
                   ("user_template", Json.str "T"),
                   ("output_format", Json.str "")]) := by rfl

example : validate_config (Json.obj [("system", Json.str ""), ("user_template", Json.str "")]) =
    .ok false := by rfl

theorem joinNl_head_str {s : String} {rest : List Json} {out : List Char}
    (h : joinNl (Json.str s :: rest) = .ok out) : ∃ t, out = s.data ++ t := by
  cases rest with
  | nil =>
    simp only [joinNl, strOfJson] at h
    injection h with h1
    exact ⟨[], by rw [← h1]; simp⟩
  | cons y ys =>
    simp only [joinNl, strOfJson] at h
    cases hj : joinNl (y :: ys) with
    | error e =>
      rw [hj] at h
      cases h
    | ok rs =>
      rw [hj] at h
      injection h with h1
      exact ⟨'\n' :: rs, h1.symm⟩

theorem joinNl_youAre_ne {role : Json} {rest : List Json} {sys : List Char}
    (h : joinNl (youAre role :: rest) = .ok sys) : ¬ String.mk sys = "" := by
  unfold youAre at h
  obtain ⟨t, hts⟩ := joinNl_head_str h
  intro he
  have hnil : sys = [] := congrArg String.data he
  rw [hts] at hnil
  obtain ⟨h1, -⟩ := List.append_eq_nil.mp hnil
  have h1b : "You are ".data ++ (pyStrL role ++ ['.']) = [] := h1
  obtain ⟨h2, -⟩ := List.append_eq_nil.mp h1b
  exact absurd h2 (by decide)

theorem buildStructured_ok_shape {config p : Json} (h : buildStructured config = .ok p) :
    ∃ sp ut ofv,
      p = Json.obj [("system", Json.str sp), ("user_template", ut), ("output_format", ofv)] ∧
      ¬ sp = "" := by
  unfold buildStructured at h
  repeat' split at h
  all_goals cases h
  all_goals refine ⟨_, _, _, rfl, ?_⟩
  all_goals exact joinNl_youAre_ne (by assumption)

theorem pyGet_of_getItem {config : Json} {k : String} {v d : Json}
    (h : pyGetItem config k = .ok v) : pyGet config k d = .ok v := by
  unfold pyGetItem at h
  unfold pyGet
  cases config <;> try (cases h)
  dsimp only at h ⊢
  rename_i fs
  cases hl : lookupLast fs k with
  | some w =>
    rw [hl] at h
    injection h with h1
    rw [h1]
  | none =>
    rw [hl] at h
    cases h

theorem validate_raw_fields {config : Json} (hv : validate_config config = .ok false) :
    ∃ s0 u0, pyGetItem config "system" = .ok (Json.str s0) ∧
      pyGetItem config "user_template" = .ok (Json.str u0) := by
  unfold validate_config at hv
  repeat' split at hv
  all_goals cases hv
  rename_i x1 hin1 x2 ssec s1 hgs x3 hin2 x4 ut1 u1 hgu
  exact ⟨s1, u1, hgs, hgu⟩

theorem buildRaw_ok_shape {config p : Json} (hv : validate_config config = .ok false)
    (h : buildRaw config = .ok p) :
    ∃ s0 u0 rest,
      p = Json.obj (("system", Json.str s0) :: ("user_template", Json.str u0) :: rest) := by
  obtain ⟨s0, u0, hs, hu⟩ := validate_raw_fields hv
  unfold buildRaw at h
  rw [hs, pyGet_of_getItem hu] at h
  dsimp only at h
  split at h
  · rename_i fs heqc
    injection h with h1
    exact ⟨s0, u0, _, h1.symm⟩
  · cases h

/-- C3 (amended): a successful structured build always has a `system` string
that is non-empty (it starts with `"You are "`), with `user_template` passed
through unvalidated (any value, possibly empty or non-string); a successful
raw-shape load guarantees only that `system` and `user_template` are strings
(`isinstance` checks), not that they are non-empty. (The unamended claim
fails: a raw template whose `system` and `user_template` are empty strings
loads successfully; see the counterexample.) -/
theorem prompts_fields (config p : Json) :
    (buildStructured config = .ok p →
      ∃ sp ut ofv,
        p = Json.obj [("system", Json.str sp), ("user_template", ut), ("output_format", ofv)] ∧
        ¬ sp = "") ∧
    (validate_config config = .ok false → buildRaw config = .ok p →
      ∃ s0 u0 rest,
        p = Json.obj (("system", Json.str s0) :: ("user_template", Json.str u0) :: rest)) := by
  exact ⟨fun h => buildStructured_ok_shape h, fun hv h => buildRaw_ok_shape hv h⟩

/-- C3 (counterexample): a raw template with empty `system` and
`user_template` strings passes `_validate_config` and loads successfully, so
the loaded fields are not always non-empty. -/
theorem prompts_fields_counterexample :
    (load ⟨"en", []⟩
        ⟨[(("en", "a"), .ok (Json.obj [("system", Json.str ""), ("user_template", Json.str "")]))],
          [], ["en"]⟩ "a" "latest").1 =
      .ok (Json.obj [("system", Json.str ""), ("user_template", Json.str "")]) ∧
    ("" : String).data.length = 0 :=
  ⟨rfl, rfl⟩

/-- C3 witness: the field-shape theorem applied to a concrete structured
config and its built prompts. -/
theorem prompts_fields_witness :
    ∃ sp ut ofv,
      Json.obj [("system", Json.str "You are a tutor.\n\nHelp."),
                ("user_template", Json.str "T"),
                ("output_format", Json.str "")] =
        Json.obj [("system", Json.str sp), ("user_template", ut), ("output_format", ofv)] ∧
      ¬ sp = "" :=
  (prompts_fields
      (Json.obj [("system", Json.obj [("role", Json.str "a tutor"), ("task", Json.str "Help.")]),
                 ("user", Json.obj [("template", Json.str "T")])])
      (Json.obj [("system", Json.str "You are a tutor.\n\nHelp."),
                 ("user_template", Json.str "T"),
                 ("output_format", Json.str "")])).1 rfl

theorem lookupStr_none_filter (l : List (String × Json)) (k : String)
    (h : lookupStr l k = none) : l.filter (fun q => ¬ q.1 = k) = l := by
  induction l with
  | nil => rfl
  | cons q rest ih =>
    obtain ⟨k1, v⟩ := q
    unfold lookupStr at h
    by_cases hk : k1 = k
    · rw [if_pos hk] at h
      cases h
    · rw [if_neg hk] at h
      rw [List.filter_cons, ih h]
      simp [hk]

theorem loaderState_eta (st : LoaderState) : (⟨st.language, st.cache⟩ : LoaderState) = st := by
  cases st
  rfl

/-- C6: when the first `load` of a key was a cache miss that read the file
once and succeeded, a repeated `load` returns the same prompts with no file
read and no state change; `reload` evicts exactly that key's entry (the rest
of the cache is untouched), re-reads the file, and returns the same result;
and the state after the first load is exactly the old cache plus the new
entry. -/
theorem load_cache_reload (st : LoaderState) (fs : FS) (agent version : String)
    (p : Json) (st2 : LoaderState)
    (hmiss : lookupStr st.cache (cacheKey agent version st.language) = none)
    (h : load st fs agent version = (.ok p, st2, 1)) :
    load st2 fs agent version = (.ok p, st2, 0) ∧
    reload st2 fs agent version = (.ok p, st2, 1) ∧
    st2 = ⟨st.language, (cacheKey agent version st.language, p) :: st.cache⟩ ∧
    st2.cache.filter (fun q => ¬ q.1 = cacheKey agent version st.language) = st.cache := by
  unfold load at h
  dsimp only at h
  rw [hmiss] at h
  cases hres : resolveFile fs st.language agent with
  | error e =>
    rw [hres] at h
    simp at h
  | ok content =>
    rw [hres] at h
    dsimp only at h
    cases hrc : readConfig content with
    | error e =>
      rw [hrc] at h
      simp at h
    | ok config =>
      rw [hrc] at h
      dsimp only at h
      cases hvc : validate_config config with
      | error e =>
        rw [hvc] at h
        simp at h
      | ok isStructured =>
        rw [hvc] at h
        dsimp only at h
        cases hb : (if isStructured then buildStructured config else buildRaw config) with
        | error e =>
          rw [hb] at h
          simp at h
        | ok prompts =>
          rw [hb] at h
          dsimp only at h
          simp only [Prod.mk.injEq] at h
          obtain ⟨h1, h2, -⟩ := h
          injection h1 with h1
          subst h1
          have hst2 : st2 =
              ⟨st.language, (cacheKey agent version st.language, prompts) :: st.cache⟩ :=
            h2.symm
          have hfilter : st2.cache.filter
              (fun q => ¬ q.1 = cacheKey agent version st.language) = st.cache := by
            rw [hst2]
            dsimp only
            rw [List.filter_cons, lookupStr_none_filter st.cache _ hmiss]
            simp
          have hl : lookupStr ((cacheKey agent version st.language, prompts) :: st.cache)
              (cacheKey agent version st.language) = some prompts := by
            simp [lookupStr]
          refine ⟨?_, ?_, hst2, hfilter⟩
          · unfold load
            rw [hst2]
            dsimp only
            rw [hl]
          · unfold reload
            dsimp only
            have hlang : st2.language = st.language := by rw [hst2]
            rw [hlang, hfilter]
            rw [loaderState_eta st]
            unfold load
            dsimp only
            rw [hmiss]
            dsimp only
            rw [hres]
            dsimp only
            rw [hrc]
            dsimp only
            rw [hvc]
            dsimp only
            rw [hb]
            dsimp only
            rw [← hst2]

/-- C6 witness: the cache/reload theorem applied to a concrete loader state
and filesystem; the second load is a cache hit with no file read. -/
theorem load_cache_reload_witness :
    load ⟨"en", [("a_latest_en", Json.obj [("system", Json.str "S"), ("user_template", Json.str "U")])]⟩
        ⟨[(("en", "a"), .ok (Json.obj [("system", Json.str "S"), ("user_template", Json.str "U")]))],
          [], ["en"]⟩ "a" "latest" =
      (.ok (Json.obj [("system", Json.str "S"), ("user_template", Json.str "U")]),
        ⟨"en", [("a_latest_en", Json.obj [("system", Json.str "S"), ("user_template", Json.str "U")])]⟩,
        0) :=
  (load_cache_reload ⟨"en", []⟩
      ⟨[(("en", "a"), .ok (Json.obj [("system", Json.str "S"), ("user_template", Json.str "U")]))],
        [], ["en"]⟩ "a" "latest"
      (Json.obj [("system", Json.str "S"), ("user_template", Json.str "U")])
      ⟨"en", [("a_latest_en", Json.obj [("system", Json.str "S"), ("user_template", Json.str "U")])]⟩
      rfl rfl).1

/-- C8: `load` resolves the exact file `<base_dir>/<language>/<agent>.yaml`
first, else the first recursive-search hit under the language directory, else
raises `FileNotFoundError` (also when the language directory is missing);
`load` surfaces that error on a cache miss; and `BaseAgent.__init__` turns it
into `prompts = None` instead of propagating. -/
theorem resolve_order (fs : FS) (language agent : String) :
    (∀ c, fsFind fs.direct (language, agent) = some c →
      resolveFile fs language agent = .ok c) ∧
    (fsFind fs.direct (language, agent) = none →
      fs.langDirs.contains language = true →
      ∀ c, fsFind fs.nested (language, agent) = some c →
      resolveFile fs language agent = .ok c) ∧
    (fsFind fs.direct (language, agent) = none →
      (fs.langDirs.contains language = false ∨ fsFind fs.nested (language, agent) = none) →
      resolveFile fs language agent = .error .fileNotFoundError) ∧
    (∀ st version, st.language = language →
      lookupStr st.cache (cacheKey agent version language) = none →
      resolveFile fs language agent = .error .fileNotFoundError →
      (load st fs agent version).1 = .error .fileNotFoundError) ∧
    baseAgentPrompts (.error .fileNotFoundError) = none := by
  refine ⟨?_, ?_, ?_, ?_, rfl⟩
  · intro c h
    unfold resolveFile
    rw [h]
  · intro h1 h2 c h3
    unfold resolveFile
    rw [h1]
    dsimp only
    rw [if_pos h2, h3]
  · intro h1 h2
    unfold resolveFile
    rw [h1]
    dsimp only
    rcases h2 with h2 | h2
    · rw [if_neg (by rw [h2]; exact Bool.false_ne_true)]
    · by_cases hd : fs.langDirs.contains language = true
      · rw [if_pos hd, h2]
      · rw [if_neg hd]
  · intro st version hlang hm hr
    unfold load
    dsimp only
    rw [hlang, hm]
    dsimp only
    rw [hr]

/-- C8 witness: a filesystem with one exact-path file; resolution returns it. -/
theorem resolve_order_witness :
    resolveFile ⟨[(("en", "a"), .ok Json.null)], [], ["en"]⟩ "en" "a" = .ok (.ok Json.null) :=
  (resolve_order ⟨[(("en", "a"), .ok Json.null)], [], ["en"]⟩ "en" "a").1 (.ok Json.null) rfl

/-! ### `BaseAgent.get_model` and `BaseAgent.call_llm`
(src/agents/solve/base_agent.py): the environment value of `LLM_MODEL` is an
input (`none` when unset); the completion call is an input function invoked
at most once. -/

def getModelMsg (agentName : String) : String :=
  "Error: Environment variable LLM_MODEL is not set\nPlease configure LLM_MODEL in your .env file, for example:\nLLM_MODEL=gpt-4o-mini\nAgent: "
    ++ agentName

/-- `BaseAgent.get_model`: `if not env_model` covers both an unset and an
empty `LLM_MODEL`. -/
def get_model (agentName : String) (env : Option String) : Except String String :=
  match env with
  | none => .error (getModelMsg agentName)
  | some s => if s = "" then .error (getModelMsg agentName) else .ok s

/-- `BaseAgent.call_llm`: `model = model or self.get_model()`, then a single
completion call; the second component counts completion attempts. -/
def call_llm (agentName : String) (env : Option String) (modelArg : Option String)
    (llm : String → Except String String) : Except String String × Nat :=
  match (match modelArg with
         | some s => if s = "" then get_model agentName env else .ok s
         | none => get_model agentName env) with
  | .error e => (.error e, 0)
  | .ok model => (llm model, 1)

theorem containsSub_nil (ys : List Char) : containsSub [] ys = true := by
  induction ys with
  | nil => rfl
  | cons c rest ih => simp [containsSub, startsWithL]

theorem startsWithL_append (needle xs ys : List Char) (h : startsWithL needle xs = true) :
    startsWithL needle (xs ++ ys) = true := by
  induction needle generalizing xs with
  | nil => rfl
  | cons c cs ih =>
    cases xs with
    | nil => simp [startsWithL] at h
    | cons b bs =>
      simp only [List.cons_append, startsWithL, Bool.and_eq_true] at h ⊢
      exact ⟨h.1, ih bs h.2⟩

theorem containsSub_append (needle xs ys : List Char) (h : containsSub needle xs = true) :
    containsSub needle (xs ++ ys) = true := by
  induction xs with
  | nil =>
    simp only [containsSub, List.isEmpty_iff] at h
    subst h
    exact containsSub_nil ys
  | cons c rest ih =>
    simp only [List.cons_append, containsSub, Bool.or_eq_true] at h ⊢
    rcases h with h | h
    · exact Or.inl (by simpa using startsWithL_append needle (c :: rest) ys h)
    · exact Or.inr (ih h)

/-- C9: with no explicit model argument, `call_llm` resolves the model from
the `LLM_MODEL` environment value; when that is unset or empty it fails with
the message naming `LLM_MODEL` before any completion attempt (zero attempts);
when set it makes exactly one completion attempt with that model; and no call
ever makes more than one attempt (no retry). -/
theorem call_llm_model (agentName : String) (env : Option String)
    (llm : String → Except String String) :
    (env = none →
      call_llm agentName env none llm = (.error (getModelMsg agentName), 0)) ∧
    (env = some "" →
      call_llm agentName env none llm = (.error (getModelMsg agentName), 0)) ∧
    containsSub "LLM_MODEL".data (getModelMsg agentName).data = true ∧
    (∀ s, env = some s → ¬ s = "" →
      call_llm agentName env none llm = (llm s, 1)) ∧
    (∀ modelArg, (call_llm agentName env modelArg llm).2 ≤ 1) := by
  refine ⟨?_, ?_, ?_, ?_, ?_⟩
  · intro he
    subst he
    rfl
  · intro he
    subst he
    rfl
  · unfold getModelMsg
    rw [String.data_append]
    exact containsSub_append _ _ _ (by decide)
  · intro s he hs
    subst he
    unfold call_llm get_model
    dsimp only
    rw [if_neg hs]
  · intro modelArg
    unfold call_llm
    split <;> simp

/-- C9 witness: an unset `LLM_MODEL` with no model argument fails with zero
completion attempts. -/
theorem call_llm_model_witness :
    call_llm "solve" none none (fun m => .ok m) = (.error (getModelMsg "solve"), 0) :=
  (call_llm_model "solve" none (fun m => .ok m)).1 rfl

/-- C10: `set_language` with a language outside `zh`/`en` raises `ValueError`
with the loader state (language and cache) exactly as before; with `zh` or
`en` it sets the language and clears the whole cache. -/
theorem set_language_spec (st : LoaderState) (language : String) :
    (¬ (language = "zh" ∨ language = "en") →
      set_language st language = (.error .valueError, st)) ∧
    ((language = "zh" ∨ language = "en") →
      set_language st language = (.ok (), ⟨language, []⟩)) := by
  constructor
  · intro h
    unfold set_language
    rw [if_neg h]
  · intro h
    unfold set_language
    rw [if_pos h]

/-- C10 witness: `"fr"` is rejected and a non-trivial state is unchanged. -/
theorem set_language_spec_witness :
    ¬ (("fr" : String) = "zh" ∨ ("fr" : String) = "en") ∧
    set_language ⟨"en", [("k", Json.null)]⟩ "fr" =
      (.error .valueError, ⟨"en", [("k", Json.null)]⟩) :=
  ⟨by decide, (set_language_spec ⟨"en", [("k", Json.null)]⟩ "fr").1 (by decide)⟩
